import Mathlib

/-!
Console hook of go-logger: formatting and routing of log entries.

A shallow embedding of `console_hook.go`.  Go strings are byte sequences, so
`len` and slicing count bytes.  Operations that can end abnormally (slice
expressions, `strings.Repeat`, the `String()` method of an attribute value, a
write to a broken pipe) return `Except Panic _`.  The logrus entry is modelled
by the four fields the hook reads.
-/

namespace ConsoleHook

/-! ## Go strings and the run-time operations used by the hook -/

/-- Go string: an immutable sequence of bytes. -/
abbrev GoString := List UInt8

/-- Bytes of an ASCII literal of the source text. -/
def ascii (s : String) : GoString :=
  s.toList.map fun c => c.toNat.toUInt8

/-- Abnormal ends of a call: the run-time panics of a slice expression out of
range and of `strings.Repeat` with a negative count, a panic raised inside
the `String()` method of an attribute value, and the death of the process by
the signal SIGPIPE. -/
inductive Panic where
  | sliceBounds
  | negativeRepeat
  | stringMethod
  | sigpipe
  deriving DecidableEq, Repr

instance instDecidableEqExcept {ε α : Type} [DecidableEq ε] [DecidableEq α] :
    DecidableEq (Except ε α)
  | .ok a, .ok b => if h : a = b then isTrue (by rw [h]) else isFalse (by intro h1; cases h1; exact h rfl)
  | .error a, .error b =>
    if h : a = b then isTrue (by rw [h]) else isFalse (by intro h1; cases h1; exact h rfl)
  | .ok _, .error _ => isFalse (by intro h; cases h)
  | .error _, .ok _ => isFalse (by intro h; cases h)

/-- Go slice expression `s[lo:hi]` on a string: panics unless
`0 <= lo <= hi <= len(s)`. -/
def slice (s : GoString) (lo hi : Int) : Except Panic GoString :=
  if lo < 0 ∨ hi < lo ∨ (s.length : Int) < hi then
    .error .sliceBounds
  else
    .ok ((s.take hi.toNat).drop lo.toNat)

/-- Go slice expression `s[:hi]`, that is `s[0:hi]`. -/
def sliceTo (s : GoString) (hi : Int) : Except Panic GoString :=
  slice s 0 hi

/-- Go `strings.Repeat(s, count)`: panics on a negative count.  Memory is not
bounded here: the allocation of the result always succeeds. -/
def stringsRepeat (s : GoString) (count : Int) : Except Panic GoString :=
  if count < 0 then
    .error .negativeRepeat
  else
    .ok (List.replicate count.toNat s).flatten

/-- Go `strings.ToUpper` on ASCII text: the letters a-z are mapped to A-Z and
every other byte is kept.  The hook applies it to level names only, which are
ASCII. -/
def toUpper (s : GoString) : GoString :=
  s.map fun b => if 97 ≤ b ∧ b ≤ 122 then b - 32 else b

/-- Decimal digits of `n`, most significant first, prepended to `acc`. -/
def digitsAux : Nat → Nat → GoString → GoString
  | 0, _, acc => acc
  | fuel + 1, n, acc =>
    if n < 10 then UInt8.ofNat (48 + n) :: acc
    else digitsAux fuel (n / 10) (UInt8.ofNat (48 + n % 10) :: acc)

/-- Decimal rendering of a natural number. -/
def utoa (n : Nat) : GoString :=
  digitsAux (n + 1) n []

/-- Go `strconv.Itoa`. -/
def strconvItoa (i : Int) : GoString :=
  (if i < 0 then ascii "-" else []) ++ utoa i.natAbs

/-- Go `time.appendInt`: sign, zero padding up to `width`, decimal digits. -/
def appendInt (b : GoString) (x : Int) (width : Nat) : GoString :=
  let b := if x < 0 then b ++ ascii "-" else b
  let ds := utoa x.natAbs
  b ++ List.replicate (width - ds.length) 48 ++ ds

/-- Wall-clock reading of a Go `time.Time` in its own location: the values of
`Date()`, `Clock()` and `Nanosecond()`. -/
structure Time where
  year : Int
  month : Nat
  day : Nat
  hour : Nat
  minute : Nat
  second : Nat
  nanosecond : Nat
  deriving DecidableEq, Repr

/-- Go `Time.Format("2006-01-02T15:04:05.000")`: the fraction is the first three
of the nine zero-padded nanosecond digits. -/
def Time.Format (t : Time) : GoString :=
  let b := appendInt [] t.year 4
  let b := b ++ ascii "-"
  let b := appendInt b t.month 2
  let b := b ++ ascii "-"
  let b := appendInt b t.day 2
  let b := b ++ ascii "T"
  let b := appendInt b t.hour 2
  let b := b ++ ascii ":"
  let b := appendInt b t.minute 2
  let b := b ++ ascii ":"
  let b := appendInt b t.second 2
  let b := b ++ ascii "."
  let b := appendInt b t.nanosecond 9
  b.take (b.length - 9 + 3)

/-! ## logrus levels and entries -/

/-- Severity of logrus, an unsigned integer. -/
abbrev Level := Nat

def PanicLevel : Level := 0
def FatalLevel : Level := 1
def ErrorLevel : Level := 2
def WarnLevel : Level := 3
def InfoLevel : Level := 4
def DebugLevel : Level := 5

/-- Method `Level.String` of logrus: the lower-case level name, and `unknown`
for a value that is none of the six levels. -/
def Level.String (level : Level) : GoString :=
  if level = DebugLevel then ascii "debug"
  else if level = InfoLevel then ascii "info"
  else if level = WarnLevel then ascii "warning"
  else if level = ErrorLevel then ascii "error"
  else if level = FatalLevel then ascii "fatal"
  else if level = PanicLevel then ascii "panic"
  else ascii "unknown"

/-- Dynamic value held by a non-nil `interface{}`, by what the type switch of
`getModuleName` and `fmt` ask of it: `asString` is the string when the dynamic
type is `string`; `callString` is present when the dynamic type has the method
`String() string` and is the outcome of calling it, its text or the panic it
raises (as for a nil pointer whose method reads the receiver); `sprint` is the
text of `fmt.Sprintf("%v", v)`, which does not fail since `fmt` recovers from
panics. -/
structure Dynamic where
  asString : Option GoString
  callString : Option (Except Panic GoString)
  sprint : GoString
  deriving DecidableEq

/-- Attribute value (`interface{}`): the nil interface or a dynamic value. -/
abbrev Value := Option Dynamic

/-- The nil interface. -/
def Value.nil : Value := none

/-- A value of dynamic type `string`. -/
def Value.str (s : GoString) : Value :=
  some { asString := some s, callString := none, sprint := s }

/-- A value that is not a string and whose `String()` method returns `text`. -/
def Value.stringer (text : GoString) : Value :=
  some { asString := none, callString := some (.ok text), sprint := text }

/-- A value that is not a string and has no `String()` method, with its `%v`
rendering. -/
def Value.other (rendered : GoString) : Value :=
  some { asString := none, callString := none, sprint := rendered }

/-- A nil pointer of a type whose `String()` method reads the receiver, such as
a nil `*url.URL`: calling the method panics, while `fmt` prints `<nil>`. -/
def Value.nilPointer : Value :=
  some { asString := none, callString := some (.error Panic.stringMethod),
         sprint := ascii "<nil>" }

/-- Go `fmt.Sprintf("%v", v)`: `<nil>` for the nil interface. -/
def fmtSprintV (v : Value) : GoString :=
  match v with
  | none => ascii "<nil>"
  | some d => d.sprint

/-- Go map index expression `m[key]` on a `map[string]interface{}`: the nil
interface when the key is absent. -/
def mapIndex (m : List (GoString × Value)) (key : GoString) : Value :=
  match m.lookup key with
  | some v => v
  | none => none

/-- The fields of `logrus.Entry` read by the hook. -/
structure Entry where
  Data : List (GoString × Value)
  Level : Level
  Message : GoString
  Time : Time
  deriving DecidableEq

/-! ## console_hook.go -/

def nocolor : Int := 0
def red : Int := 31
def green : Int := 32
def yellow : Int := 33
def blue : Int := 34
def gray : Int := 37

/-- Module name of an entry: the `module` attribute, by the type switch on its
dynamic type: a `string` first, then a `fmt.Stringer`, whose `String()` is
called directly so that a panic of the method leaves the function, and
`fmt.Sprintf("%v", mod)` for everything else, the nil interface included. -/
def getModuleName (entry : Entry) : Except Panic GoString :=
  let mod := mapIndex entry.Data (ascii "module")
  match mod with
  | some d =>
    match d.asString with
    | some s => .ok s
    | none =>
      match d.callString with
      | some result => result
      | none => .ok (fmtSprintV mod)
  | none => .ok (fmtSprintV mod)

/-- Formats one entry and appends the line to the buffer. -/
def printEntry (buf : GoString) (entry : Entry) (colored : Bool) (modLength : Int) :
    Except Panic GoString := do
  let (colorPfx, colorSfx) : GoString × GoString :=
    if colored then
      let levelColor : Int :=
        if entry.Level = DebugLevel then gray
        else if entry.Level = WarnLevel then yellow
        else if entry.Level = ErrorLevel ∨ entry.Level = FatalLevel ∨ entry.Level = PanicLevel then red
        else blue
      (ascii "\x1b[" ++ strconvItoa levelColor ++ ascii "m", ascii "\x1b[0m")
    else
      ([], [])
  let buf := buf ++ (entry.Time.Format ++ ascii " ")
  let modStr ← getModuleName entry
  let modStr ←
    if (modStr.length : Int) > modLength then
      sliceTo modStr modLength
    else do
      let pad ← stringsRepeat (ascii " ") (modLength - modStr.length)
      pure (pad ++ modStr)
  let buf := buf ++ (ascii "[" ++ modStr ++ ascii "] ")
  let levelText ← slice (toUpper (Level.String entry.Level)) 0 4
  let buf := buf ++ (colorPfx ++ levelText ++ colorSfx ++ ascii "  ")
  let buf := buf ++ (entry.Message ++ ascii "\n")
  pure buf

/-- The two console streams. -/
inductive Stream where
  | Stderr
  | Stdout
  deriving DecidableEq, Repr

/-- Stream selected by `Fire` for a level (the variable `out`): warnings and
above go to `os.Stderr`, all others to `os.Stdout`. -/
def Fire.out (level : Level) : Stream :=
  if level ≤ WarnLevel then Stream.Stderr else Stream.Stdout

/-- Modelled from the spec: the logger type is declared outside
console_hook.go; the hook reads its terminal flag and the module field width
that `GetModuleLength` returns (a Go `int`). -/
structure Logger where
  isTerminal : Bool
  moduleLength : Int
  deriving DecidableEq, Repr

/-- Modelled from the spec: the accessor of the module field width. -/
def Logger.GetModuleLength (logger : Logger) : Int :=
  logger.moduleLength

/-- The hook: its logger (the embedded mutex has no sequential effect). -/
structure consoleHook where
  logger : Logger
  deriving DecidableEq, Repr

def newConsoleHook (logger : Logger) : consoleHook :=
  { logger := logger }

/-- Bytes received so far by the two console streams. -/
structure Console where
  stderr : GoString
  stdout : GoString
  deriving DecidableEq, Repr

/-- What happens at one write to `os.Stdout` or `os.Stderr`: the stream takes
all the bytes; or it takes the first `written` bytes and the write returns an
error with the given text; or the write meets a broken pipe (EPIPE) after
`written` bytes, at which the Go run time, for the descriptors 1 and 2 of a
program that does not handle SIGPIPE itself, raises SIGPIPE and the process
dies inside the write. -/
inductive WriteOutcome where
  | complete
  | failed (written : Nat) (err : GoString)
  | brokenPipe (written : Nat)
  deriving DecidableEq, Repr

/-- Appends bytes to one stream of the console. -/
def Console.append (c : Console) (out : Stream) (p : GoString) : Console :=
  match out with
  | Stream.Stderr => { c with stderr := c.stderr ++ p }
  | Stream.Stdout => { c with stdout := c.stdout ++ p }

/-- Go `io.Copy(out, &buf)`: one write of the whole buffer to the stream; the
result is the new console and the error, if any, unless the process dies at
the write. -/
def ioCopy (c : Console) (out : Stream) (buf : GoString) (o : WriteOutcome) :
    Except Panic (Console × Option GoString) :=
  match o with
  | WriteOutcome.complete => .ok (c.append out buf, none)
  | WriteOutcome.failed written err => .ok (c.append out (buf.take written), some err)
  | WriteOutcome.brokenPipe _ => .error Panic.sigpipe

/-- Method `Fire` of the hook, run on a console with the given operating
system name (`runtime.GOOS`) and write outcome; the result is the new console
and the returned error (`none` for nil). -/
def consoleHook.Fire (hook : consoleHook) (goos : GoString) (entry : Entry)
    (o : WriteOutcome) (c : Console) : Except Panic (Console × Option GoString) := do
  let buf : GoString := []
  let isColorTerminal := hook.logger.isTerminal && (goos != ascii "windows")
  let buf ← printEntry buf entry isColorTerminal hook.logger.GetModuleLength
  let out := Fire.out entry.Level
  let (c, err) ← ioCopy c out buf o
  match err with
  | some e => pure (c, some (ascii "Failed to write to log, " ++ e ++ ascii "\n"))
  | none => pure (c, none)

/-- Method `Levels` of the hook: the severities the hook asks to receive. -/
def consoleHook.Levels (_hook : consoleHook) : List Level :=
  [PanicLevel, FatalLevel, ErrorLevel, WarnLevel, InfoLevel, DebugLevel]

/-! ## Counting characters and occurrences -/

/-- Width in bytes of the first UTF-8 encoded character of `s`, as Go
`utf8.DecodeRuneInString` reports it: an invalid or truncated encoding counts
as one character of width 1. -/
def runeWidth (s : GoString) : Nat :=
  let cont := fun (b : UInt8) => decide (0x80 ≤ b ∧ b ≤ 0xBF)
  match s with
  | [] => 0
  | b0 :: rest =>
    if b0 < 0x80 then 1
    else if 0xC2 ≤ b0 ∧ b0 ≤ 0xDF then
      match rest with
      | b1 :: _ => if cont b1 then 2 else 1
      | _ => 1
    else if 0xE0 ≤ b0 ∧ b0 ≤ 0xEF then
      match rest with
      | b1 :: b2 :: _ =>
        let lo : UInt8 := if b0 = 0xE0 then 0xA0 else 0x80
        let hi : UInt8 := if b0 = 0xED then 0x9F else 0xBF
        if lo ≤ b1 ∧ b1 ≤ hi ∧ cont b2 then 3 else 1
      | _ => 1
    else if 0xF0 ≤ b0 ∧ b0 ≤ 0xF4 then
      match rest with
      | b1 :: b2 :: b3 :: _ =>
        let lo : UInt8 := if b0 = 0xF0 then 0x90 else 0x80
        let hi : UInt8 := if b0 = 0xF4 then 0x8F else 0xBF
        if lo ≤ b1 ∧ b1 ≤ hi ∧ cont b2 ∧ cont b3 then 4 else 1
      | _ => 1
    else 1

/-- Character count with an explicit bound on the number of steps. -/
def runeCountAux : Nat → GoString → Nat
  | 0, _ => 0
  | fuel + 1, s => if s = [] then 0 else 1 + runeCountAux fuel (s.drop (runeWidth s))

/-- Number of characters of a string, as Go `utf8.RuneCountInString`. -/
def runeCount (s : GoString) : Nat :=
  runeCountAux s.length s

/-- Number of positions of `s` at which `pat` occurs as a contiguous run. -/
def countInfix (pat : GoString) : GoString → Nat
  | [] => if pat.isPrefixOf [] then 1 else 0
  | b :: s => (if pat.isPrefixOf (b :: s) then 1 else 0) + countInfix pat s

/-- The number `n` written with exactly `k` decimal digits (its last `k`
digits, with leading zeros). -/
def fixedDigits : Nat → Nat → GoString
  | 0, _ => []
  | k + 1, n => fixedDigits k (n / 10) ++ [UInt8.ofNat (48 + n % 10)]

/-- Largest size of one allocation on a 64-bit system (`maxAlloc` of the Go run
time, 2^48 bytes), beyond which `make` panics.  `stringsRepeat` does not model
that panic; statements on the absence of panics are made within this bound. -/
def maxAlloc : Int := 2 ^ 48

/-- The escape byte 0x1B. -/
def ESC : UInt8 := 0x1b

/-! ## Worked records -/

/-- Record of the end-to-end example: 2024-03-01T10:15:30.123, Error, module
`db`, message `conn lost`. -/
def exampleEntry : Entry where
  Data := [(ascii "module", Value.str (ascii "db"))]
  Level := ErrorLevel
  Message := ascii "conn lost"
  Time := ⟨2024, 3, 1, 10, 15, 30, 123000000⟩

/-- Record with the two-byte module name U+00E9 (bytes C3 A9). -/
def accentEntry : Entry where
  Data := [(ascii "module", Value.str [0xC3, 0xA9])]
  Level := InfoLevel
  Message := ascii "started"
  Time := ⟨2024, 3, 1, 10, 15, 30, 123000000⟩

/-- Record whose module name is twice U+00E9: two characters, four bytes. -/
def twoAccentEntry : Entry where
  Data := [(ascii "module", Value.str [0xC3, 0xA9, 0xC3, 0xA9])]
  Level := InfoLevel
  Message := ascii "started"
  Time := ⟨2024, 3, 1, 10, 15, 30, 123000000⟩

/-- Record with the eight-byte module name `abcdefgh`. -/
def longNameEntry : Entry where
  Data := [(ascii "module", Value.str (ascii "abcdefgh"))]
  Level := InfoLevel
  Message := ascii "started"
  Time := ⟨2024, 3, 1, 10, 15, 30, 123000000⟩

/-- Record with the two-byte module name `ab`. -/
def shortNameEntry : Entry where
  Data := [(ascii "module", Value.str (ascii "ab"))]
  Level := InfoLevel
  Message := ascii "started"
  Time := ⟨2024, 3, 1, 10, 15, 30, 123000000⟩

/-- Record whose message contains the escape byte: `a`, ESC, `b`. -/
def escMessageEntry : Entry where
  Data := [(ascii "module", Value.str (ascii "db"))]
  Level := InfoLevel
  Message := ascii "a\x1bb"
  Time := ⟨2024, 3, 1, 10, 15, 30, 123000000⟩

/-- Record whose message is the colour reset sequence ESC `[0m`. -/
def resetMessageEntry : Entry where
  Data := [(ascii "module", Value.str (ascii "db"))]
  Level := InfoLevel
  Message := ascii "\x1b[0m"
  Time := ⟨2024, 3, 1, 10, 15, 30, 123000000⟩

/-- The end-to-end example record with two further attributes. -/
def exampleEntryExtra : Entry where
  Data := [(ascii "request", Value.other (ascii "42")),
    (ascii "module", Value.str (ascii "db")), (ascii "user", Value.nil)]
  Level := ErrorLevel
  Message := ascii "conn lost"
  Time := ⟨2024, 3, 1, 10, 15, 30, 123000000⟩

/-- Record without a `module` attribute and with a level value that is none
of the six levels. -/
def bareEntry : Entry where
  Data := [(ascii "user", Value.str (ascii "root"))]
  Level := 9
  Message := ascii "hello"
  Time := ⟨2024, 3, 1, 10, 15, 30, 123000000⟩

/-- Hook of a logger on an interactive terminal with module field width 4. -/
def terminalHook : consoleHook :=
  newConsoleHook { isTerminal := true, moduleLength := 4 }

/-- Hook of a logger that is not on a terminal, with module field width 4. -/
def plainHook : consoleHook :=
  newConsoleHook { isTerminal := false, moduleLength := 4 }

/-- Hook of a logger whose module field width is -1. -/
def negativeHook : consoleHook :=
  newConsoleHook { isTerminal := false, moduleLength := -1 }

/-- Console on which nothing has been written yet. -/
def emptyConsole : Console :=
  { stderr := [], stdout := [] }

/-- Console with earlier output on both streams. -/
def usedConsole : Console :=
  { stderr := ascii "old error\n", stdout := ascii "old output\n" }

/-- Write to the error stream that fails after 10 bytes on a full device. -/
def diskFull : WriteOutcome :=
  WriteOutcome.failed 10 (ascii "write /dev/stderr: no space left on device")

/-- Write that meets a broken pipe at once. -/
def pipeClosed : WriteOutcome :=
  WriteOutcome.brokenPipe 0

/-- Record whose `module` attribute is a nil pointer with a `String()` method
that reads the receiver. -/
def nilPointerEntry : Entry where
  Data := [(ascii "module", Value.nilPointer)]
  Level := InfoLevel
  Message := ascii "started"
  Time := ⟨2024, 3, 1, 10, 15, 30, 123000000⟩

/-- Record whose `module` attribute claims both the dynamic type `string` and
a `String()` method: the type switch takes the string. -/
def stringFirstEntry : Entry where
  Data := [(ascii "module",
    some { asString := some (ascii "db"), callString := some (.ok (ascii "other")),
           sprint := ascii "db" })]
  Level := InfoLevel
  Message := ascii "started"
  Time := ⟨2024, 3, 1, 10, 15, 30, 123000000⟩

/-- Record whose `module` attribute is not a string and has a `String()`
method that returns `net`. -/
def stringerEntry : Entry where
  Data := [(ascii "module", Value.stringer (ascii "net"))]
  Level := InfoLevel
  Message := ascii "started"
  Time := ⟨2024, 3, 1, 10, 15, 30, 123000000⟩

/-! ## Auxiliary facts -/

theorem level_cases (l : Nat) :
    l = PanicLevel ∨ l = FatalLevel ∨ l = ErrorLevel ∨ l = WarnLevel ∨ l = InfoLevel ∨
      l = DebugLevel ∨ 6 ≤ l := by
  unfold PanicLevel FatalLevel ErrorLevel WarnLevel InfoLevel DebugLevel
  omega

theorem levelString_unknown (l : Nat) (h : 6 ≤ l) : Level.String l = ascii "unknown" := by
  unfold Level.String PanicLevel FatalLevel ErrorLevel WarnLevel InfoLevel DebugLevel
  have h0 : l ≠ 0 := by omega
  have h1 : l ≠ 1 := by omega
  have h2 : l ≠ 2 := by omega
  have h3 : l ≠ 3 := by omega
  have h4 : l ≠ 4 := by omega
  have h5 : l ≠ 5 := by omega
  simp [h0, h1, h2, h3, h4, h5]

/-- Upper-cased name of every level has at least four bytes. -/
theorem levelText_length (l : Nat) : 4 ≤ (toUpper (Level.String l)).length := by
  rcases level_cases l with h | h | h | h | h | h | h
  all_goals first
    | (subst h; decide)
    | (rw [levelString_unknown l h]; decide)

theorem slice_levelText (l : Nat) :
    slice (toUpper (Level.String l)) 0 4 = .ok ((toUpper (Level.String l)).take 4) := by
  have h := levelText_length l
  unfold slice
  have h4 : ¬ ((0 : Int) < 0 ∨ (4 : Int) < 0 ∨ ((toUpper (Level.String l)).length : Int) < 4) := by
    omega
  rw [if_neg h4]
  rfl

theorem flatten_replicate_space (n : Nat) :
    (List.replicate n (ascii " ")).flatten = List.replicate n (32 : UInt8) := by
  induction n with
  | zero => rfl
  | succ k ih =>
    rw [List.replicate_succ, List.flatten_cons, ih, List.replicate_succ]
    rfl

theorem sliceTo_ok (name : GoString) (w : Int) (h : 0 ≤ w) (hw : w ≤ name.length) :
    sliceTo name w = .ok (name.take w.toNat) := by
  have h2 : ¬ ((0 : Int) < 0 ∨ w < 0 ∨ (name.length : Int) < w) := by omega
  unfold sliceTo slice
  rw [if_neg h2]
  simp

theorem stringsRepeat_space (n : Int) (h : 0 ≤ n) :
    stringsRepeat (ascii " ") n = .ok (List.replicate n.toNat 32) := by
  have h2 : ¬ (n < 0) := by omega
  unfold stringsRepeat
  rw [if_neg h2, flatten_replicate_space]

theorem ok_bind {α β : Type} (a : α) (f : α → Except Panic β) :
    (Except.ok a >>= f) = f a := rfl

/-- Output of `printEntry` for a non-negative width, piece by piece. -/
theorem printEntry_eq (buf : GoString) (e : Entry) (colored : Bool) (w : Int)
    (name : GoString) (hname : getModuleName e = .ok name) (h : 0 ≤ w) :
    printEntry buf e colored w = .ok (buf ++ (e.Time.Format ++ ascii " ")
      ++ (ascii "[" ++ (if name.length > w.toNat then name.take w.toNat
            else List.replicate (w.toNat - name.length) 32 ++ name)
          ++ ascii "] ")
      ++ ((if colored then
              ascii "\x1b[" ++ strconvItoa
                (if e.Level = DebugLevel then gray
                 else if e.Level = WarnLevel then yellow
                 else if e.Level = ErrorLevel ∨ e.Level = FatalLevel ∨ e.Level = PanicLevel then red
                 else blue) ++ ascii "m"
            else [])
          ++ (toUpper (Level.String e.Level)).take 4
          ++ (if colored then ascii "\x1b[0m" else []) ++ ascii "  ")
      ++ (e.Message ++ ascii "\n")) := by
  unfold printEntry
  rw [hname]
  simp only [ok_bind]
  by_cases hlt : (name.length : Int) > w
  · have h1 : name.length > w.toNat := by omega
    have h2 : w ≤ (name.length : Int) := by omega
    cases colored
    all_goals
      simp only [slice_levelText, Bool.false_eq_true, if_false, if_true, if_pos hlt, if_pos h1,
        sliceTo_ok _ w h h2]
      rfl
  · have h1 : ¬ name.length > w.toNat := by omega
    have h2 : (0 : Int) ≤ w - (name.length : Int) := by omega
    have h3 : (w - (name.length : Int)).toNat = w.toNat - name.length := by
      omega
    cases colored
    all_goals
      simp only [slice_levelText, Bool.false_eq_true, if_false, if_true, if_neg hlt, if_neg h1,
        stringsRepeat_space _ h2, h3]
      rfl

/-- The line up to the module field, for a non-negative width. -/
theorem printEntry_field (buf : GoString) (e : Entry) (colored : Bool) (w : Int)
    (name : GoString) (hname : getModuleName e = .ok name) (h : 0 ≤ w) :
    ∃ rest : GoString, printEntry buf e colored w =
      .ok (buf ++ e.Time.Format ++ ascii " "
        ++ (ascii "[" ++ (if name.length > w.toNat then name.take w.toNat
            else List.replicate (w.toNat - name.length) 32 ++ name)
          ++ ascii "]") ++ ascii " " ++ rest) := by
  refine ⟨((if colored then
              ascii "\x1b[" ++ strconvItoa
                (if e.Level = DebugLevel then gray
                 else if e.Level = WarnLevel then yellow
                 else if e.Level = ErrorLevel ∨ e.Level = FatalLevel ∨ e.Level = PanicLevel then red
                 else blue) ++ ascii "m"
            else [])
          ++ (toUpper (Level.String e.Level)).take 4
          ++ (if colored then ascii "\x1b[0m" else []) ++ ascii "  ")
      ++ (e.Message ++ ascii "\n"), ?_⟩
  rw [printEntry_eq buf e colored w name hname h]
  simp [ascii]

/-- `getModuleName` ends with a panic exactly when the attribute is not a
string and has a `String()` method that panics. -/
theorem getModuleName_error_iff (e : Entry) :
    (∃ p : Panic, getModuleName e = .error p) ↔
      ∃ (d : Dynamic) (p : Panic), mapIndex e.Data (ascii "module") = some d ∧
        d.asString = none ∧ d.callString = some (.error p) := by
  unfold getModuleName
  cases hm : mapIndex e.Data (ascii "module") with
  | none =>
    constructor
    · rintro ⟨p, hp⟩
      cases hp
    · rintro ⟨d, p, hd, -⟩
      cases hd
  | some d =>
    cases hs : d.asString with
    | some s =>
      constructor
      · rintro ⟨p, hp⟩
        simp only [hs] at hp
        cases hp
      · rintro ⟨d1, p, hd, hs1, -⟩
        cases hd
        rw [hs] at hs1
        cases hs1
    | none =>
      cases hc : d.callString with
      | none =>
        constructor
        · rintro ⟨p, hp⟩
          simp only [hs, hc] at hp
          cases hp
        · rintro ⟨d1, p, hd, -, hc1⟩
          cases hd
          rw [hc] at hc1
          cases hc1
      | some r =>
        constructor
        · rintro ⟨p, hp⟩
          simp only [hs, hc] at hp
          exact ⟨d, p, rfl, hs, by rw [hc, hp]⟩
        · rintro ⟨d1, p, hd, -, hc1⟩
          cases hd
          rw [hc] at hc1
          cases hc1
          exact ⟨p, by simp only [hs, hc]⟩

/-! ### Digits of the timestamp -/

theorem fixedDigits_length (k n : Nat) : (fixedDigits k n).length = k := by
  induction k generalizing n with
  | zero => rfl
  | succ k ih => simp [fixedDigits, ih]

theorem fixedDigits_zero (k : Nat) : fixedDigits k 0 = List.replicate k 48 := by
  induction k with
  | zero => rfl
  | succ k ih =>
    rw [fixedDigits, Nat.zero_div, ih, List.replicate_succ']
    rfl

theorem digitsAux_fixed (fuel : Nat) :
    ∀ (n : Nat) (acc : GoString) (k : Nat), n < 10 ^ fuel → n < 10 ^ k → 1 ≤ k →
      ∃ ds : GoString, digitsAux fuel n acc = ds ++ acc ∧
        List.replicate (k - ds.length) 48 ++ ds = fixedDigits k n := by
  induction fuel with
  | zero =>
    intro n acc k hf _ _
    have hn : n = 0 := by simpa using hf
    subst hn
    exact ⟨[], rfl, by simp [fixedDigits_zero]⟩
  | succ f ih =>
    intro n acc k hf hk hk1
    cases k with
    | zero => omega
    | succ k =>
      by_cases hlt : n < 10
      · refine ⟨[UInt8.ofNat (48 + n)], by simp [digitsAux, hlt], ?_⟩
        have h0 : n / 10 = 0 := by omega
        have h1 : n % 10 = n := by omega
        simp [fixedDigits, h0, h1, fixedDigits_zero]
      · have hf2 : n / 10 < 10 ^ f := by
          rw [pow_succ] at hf
          omega
        have hk2 : n / 10 < 10 ^ k := by
          rw [pow_succ] at hk
          omega
        have hk3 : 1 ≤ k := by
          rcases Nat.eq_zero_or_pos k with h0 | h0
          · subst h0
            simp at hk2
            omega
          · exact h0
        obtain ⟨ds, hds, hpad⟩ := ih (n / 10) (UInt8.ofNat (48 + n % 10) :: acc) k hf2 hk2 hk3
        refine ⟨ds ++ [UInt8.ofNat (48 + n % 10)], ?_, ?_⟩
        · simp [digitsAux, hlt, hds]
        · rw [fixedDigits, ← hpad]
          simp

theorem utoa_fixed (k n : Nat) (h : n < 10 ^ k) (hk : 1 ≤ k) :
    List.replicate (k - (utoa n).length) 48 ++ utoa n = fixedDigits k n := by
  have hf : n < 10 ^ (n + 1) :=
    lt_of_lt_of_le (Nat.lt_pow_self (by decide) n) (Nat.pow_le_pow_right (by decide) (Nat.le_succ n))
  obtain ⟨ds, hds, hpad⟩ := digitsAux_fixed (n + 1) n [] k hf h hk
  unfold utoa
  rw [hds, List.append_nil]
  exact hpad

theorem appendInt_fixed (b : GoString) (k n : Nat) (h : n < 10 ^ k) (hk : 1 ≤ k) :
    appendInt b (n : Int) k = b ++ fixedDigits k n := by
  unfold appendInt
  have hn : ¬ ((n : Int) < 0) := by omega
  simp only [if_neg hn, Int.natAbs_ofNat, List.append_assoc]
  rw [utoa_fixed k n h hk]

theorem take_fixedDigits (k j n : Nat) :
    (fixedDigits (k + j) n).take k = fixedDigits k (n / 10 ^ j) := by
  induction j generalizing n with
  | zero =>
    rw [pow_zero, Nat.div_one, Nat.add_zero]
    exact List.take_of_length_le (le_of_eq (fixedDigits_length k n))
  | succ j ih =>
    rw [← Nat.add_assoc, fixedDigits, List.take_append_of_le_length, ih, Nat.div_div_eq_div_mul,
      pow_succ, Nat.mul_comm]
    rw [fixedDigits_length]
    omega

/-- Timestamp of a time whose fields are in range: four digits of the year and
two of each other field, and the first three of the nine nanosecond digits. -/
theorem format_fixed (t : Time) (hy0 : 0 ≤ t.year) (hy : t.year ≤ 9999) (hmo : t.month ≤ 12)
    (hd : t.day ≤ 31) (hh : t.hour ≤ 23) (hmi : t.minute ≤ 59) (hs : t.second ≤ 59)
    (hn : t.nanosecond ≤ 999999999) :
    t.Format = fixedDigits 4 t.year.toNat ++ ascii "-" ++ fixedDigits 2 t.month ++ ascii "-"
      ++ fixedDigits 2 t.day ++ ascii "T" ++ fixedDigits 2 t.hour ++ ascii ":"
      ++ fixedDigits 2 t.minute ++ ascii ":" ++ fixedDigits 2 t.second ++ ascii "."
      ++ fixedDigits 3 (t.nanosecond / 1000000) := by
  obtain ⟨y, hyy⟩ := Int.eq_ofNat_of_zero_le hy0
  have hy2 : y < 10 ^ 4 := by omega
  unfold Time.Format
  simp only [hyy, Int.toNat_ofNat]
  rw [appendInt_fixed _ 4 y hy2 (by decide), appendInt_fixed _ 2 t.month (by omega) (by decide),
    appendInt_fixed _ 2 t.day (by omega) (by decide),
    appendInt_fixed _ 2 t.hour (by omega) (by decide),
    appendInt_fixed _ 2 t.minute (by omega) (by decide),
    appendInt_fixed _ 2 t.second (by omega) (by decide),
    appendInt_fixed _ 9 t.nanosecond (by omega) (by decide)]
  have h3 := take_fixedDigits 3 6 t.nanosecond
  simp only [List.length_append, fixedDigits_length, List.nil_append]
  rw [show (10 : Nat) ^ 6 = 1000000 by norm_num] at h3
  rw [← h3]
  rw [show ∀ m : Nat, m + 9 - 9 + 3 = m + 3 by intro m; omega]
  rw [← List.take_append]
  simp only [List.length_append, fixedDigits_length]

/-! ### Bytes of the pieces of a line -/

theorem digit_ne_ESC (n : Nat) (h : n < 10) : UInt8.ofNat (48 + n) ≠ ESC := by
  unfold ESC
  interval_cases n <;> decide

theorem digitsAux_noESC (fuel n : Nat) (acc : GoString) (h : ESC ∉ acc) :
    ESC ∉ digitsAux fuel n acc := by
  induction fuel generalizing n acc with
  | zero => simpa [digitsAux] using h
  | succ k ih =>
    unfold digitsAux
    split
    · rename_i hn
      intro hmem
      rcases List.mem_cons.mp hmem with h1 | h1
      · exact digit_ne_ESC n hn h1.symm
      · exact h h1
    · apply ih
      intro hmem
      rcases List.mem_cons.mp hmem with h1 | h1
      · exact digit_ne_ESC (n % 10) (Nat.mod_lt _ (by decide)) h1.symm
      · exact h h1

theorem utoa_noESC (n : Nat) : ESC ∉ utoa n :=
  digitsAux_noESC (n + 1) n [] (by simp)

theorem appendInt_noESC (b : GoString) (x : Int) (width : Nat) (h : ESC ∉ b) :
    ESC ∉ appendInt b x width := by
  unfold appendInt
  have hu := utoa_noESC x.natAbs
  have hd : ESC ∉ ascii "-" := by decide
  have hz : ESC ≠ (48 : UInt8) := by decide
  by_cases hx : x < 0
  · simp only [if_pos hx, List.mem_append, List.mem_replicate]
    tauto
  · simp only [if_neg hx, List.mem_append, List.mem_replicate]
    tauto

theorem append_ascii_noESC (b : GoString) (lit : String) (h : ESC ∉ b) (hl : ESC ∉ ascii lit) :
    ESC ∉ b ++ ascii lit := by
  simp only [List.mem_append]
  tauto

/-- The timestamp has no escape byte. -/
theorem format_noESC (t : Time) : ESC ∉ t.Format := by
  unfold Time.Format
  intro hmem
  refine appendInt_noESC _ _ _ ?_ (List.mem_of_mem_take hmem)
  refine append_ascii_noESC _ _ ?_ (by decide)
  refine appendInt_noESC _ _ _ ?_
  refine append_ascii_noESC _ _ ?_ (by decide)
  refine appendInt_noESC _ _ _ ?_
  refine append_ascii_noESC _ _ ?_ (by decide)
  refine appendInt_noESC _ _ _ ?_
  refine append_ascii_noESC _ _ ?_ (by decide)
  refine appendInt_noESC _ _ _ ?_
  refine append_ascii_noESC _ _ ?_ (by decide)
  refine appendInt_noESC _ _ _ ?_
  refine append_ascii_noESC _ _ ?_ (by decide)
  exact appendInt_noESC _ _ _ (by simp)

/-- The level abbreviation, case by case. -/
theorem levelText_cases (l : Nat) :
    (toUpper (Level.String l)).take 4 =
      (if l = PanicLevel then ascii "PANI"
       else if l = FatalLevel then ascii "FATA"
       else if l = ErrorLevel then ascii "ERRO"
       else if l = WarnLevel then ascii "WARN"
       else if l = InfoLevel then ascii "INFO"
       else if l = DebugLevel then ascii "DEBU"
       else ascii "UNKN") := by
  rcases level_cases l with h | h | h | h | h | h | h
  · subst h; decide
  · subst h; decide
  · subst h; decide
  · subst h; decide
  · subst h; decide
  · subst h; decide
  · rw [levelString_unknown l h]
    unfold PanicLevel FatalLevel ErrorLevel WarnLevel InfoLevel DebugLevel
    have h0 : l ≠ 0 := by omega
    have h1 : l ≠ 1 := by omega
    have h2 : l ≠ 2 := by omega
    have h3 : l ≠ 3 := by omega
    have h4 : l ≠ 4 := by omega
    have h5 : l ≠ 5 := by omega
    simp only [h0, h1, h2, h3, h4, h5, if_false]
    decide

theorem levelText_noESC (l : Nat) : ESC ∉ (toUpper (Level.String l)).take 4 := by
  rw [levelText_cases]
  split_ifs <;> decide

theorem fitted_noESC (name : GoString) (n : Nat) (h : ESC ∉ name) :
    ESC ∉ (if name.length > n then name.take n
      else List.replicate (n - name.length) 32 ++ name) := by
  have hs : ESC ≠ (32 : UInt8) := by decide
  split
  · exact fun hmem => h (List.mem_of_mem_take hmem)
  · simp only [List.mem_append, List.mem_replicate]
    tauto

theorem runeCountAux_ascii (s : GoString) (fuel : Nat) (hf : s.length ≤ fuel)
    (h : ∀ b ∈ s, b < 0x80) : runeCountAux fuel s = s.length := by
  induction s generalizing fuel with
  | nil => cases fuel <;> simp [runeCountAux]
  | cons b rest ih =>
    cases fuel with
    | zero => simp at hf
    | succ k =>
      have hb : b < 0x80 := h b (List.mem_cons_self _ _)
      have hr : ∀ c ∈ rest, c < 0x80 := fun c hc => h c (List.mem_cons_of_mem _ hc)
      have hk : rest.length ≤ k := by simpa using hf
      simp only [runeCountAux, runeWidth, if_pos hb, List.drop_succ_cons, List.drop_zero,
        List.length_cons, ih k hk hr]
      simp
      omega

/-- Text made of one-byte characters has as many characters as bytes. -/
theorem runeCount_ascii (s : GoString) (h : ∀ b ∈ s, b < 0x80) : runeCount s = s.length :=
  runeCountAux_ascii s s.length (le_refl _) h

theorem fitted_length (name : GoString) (n : Nat) :
    (if name.length > n then name.take n
      else List.replicate (n - name.length) 32 ++ name).length = n := by
  split
  · rw [List.length_take]; omega
  · rw [List.length_append, List.length_replicate]; omega

/-! ### Occurrences of a run that starts with a byte absent elsewhere -/

theorem countInfix_zero (p0 : UInt8) (p s : GoString) (h : p0 ∉ s) :
    countInfix (p0 :: p) s = 0 := by
  induction s with
  | nil => simp [countInfix, List.isPrefixOf]
  | cons x s ih =>
    have hx : p0 ≠ x := fun hpx => h (hpx ▸ List.mem_cons_self _ _)
    have hs : p0 ∉ s := fun hm => h (List.mem_cons_of_mem _ hm)
    simp [countInfix, List.isPrefixOf, hx, ih hs]

theorem countInfix_skip (p0 : UInt8) (p a s : GoString) (h : p0 ∉ a) :
    countInfix (p0 :: p) (a ++ s) = countInfix (p0 :: p) s := by
  induction a with
  | nil => rfl
  | cons x a ih =>
    have hx : p0 ≠ x := fun hpx => h (hpx ▸ List.mem_cons_self _ _)
    have ha : p0 ∉ a := fun hm => h (List.mem_cons_of_mem _ hm)
    simp [countInfix, List.isPrefixOf, hx, ih ha]

/-- When the first byte of the run occurs exactly twice in the text, the run
can only start at those two places. -/
theorem countInfix_two (p0 : UInt8) (p pre mid tail : GoString)
    (hpre : p0 ∉ pre) (hmid : p0 ∉ mid) (htail : p0 ∉ tail) :
    countInfix (p0 :: p) (pre ++ p0 :: (mid ++ p0 :: tail)) =
      (if (p0 :: p).isPrefixOf (p0 :: (mid ++ p0 :: tail)) then 1 else 0)
        + (if (p0 :: p).isPrefixOf (p0 :: tail) then 1 else 0) := by
  rw [countInfix_skip p0 p pre _ hpre]
  show _ + countInfix (p0 :: p) (mid ++ p0 :: tail) = _
  rw [countInfix_skip p0 p mid _ hmid]
  show _ + (_ + countInfix (p0 :: p) tail) = _
  rw [countInfix_zero p0 p tail htail, Nat.add_zero]

theorem count_two (a : UInt8) (pre mid tail : GoString)
    (hpre : a ∉ pre) (hmid : a ∉ mid) (htail : a ∉ tail) :
    List.count a (pre ++ a :: (mid ++ a :: tail)) = 2 := by
  rw [List.count_append, List.count_cons_self, List.count_append, List.count_cons_self,
    List.count_eq_zero.mpr hpre, List.count_eq_zero.mpr hmid, List.count_eq_zero.mpr htail]

/-- Colour code of a level: two digits, the first of which is 3. -/
theorem levelColor_digits (l : Nat) :
    ∃ c2 : UInt8, c2 ≠ ESC ∧
      strconvItoa
        (if l = DebugLevel then gray
         else if l = WarnLevel then yellow
         else if l = ErrorLevel ∨ l = FatalLevel ∨ l = PanicLevel then red
         else blue) = [0x33, c2] := by
  split_ifs
  · exact ⟨0x37, by decide, by decide⟩
  · exact ⟨0x33, by decide, by decide⟩
  · exact ⟨0x31, by decide, by decide⟩
  · exact ⟨0x34, by decide, by decide⟩

/-! ## The claims -/

/-- C1: the stream selected by `Fire` is a total function of the level: it is
the error stream exactly for Panic, Fatal, Error and Warn, and the standard
output stream exactly for every other value, among them Info and Debug. -/
theorem C1_stream_routing (level : Level) :
    (Fire.out level = Stream.Stderr ↔
      level = PanicLevel ∨ level = FatalLevel ∨ level = ErrorLevel ∨ level = WarnLevel) ∧
    (Fire.out level = Stream.Stdout ↔
      ¬ (level = PanicLevel ∨ level = FatalLevel ∨ level = ErrorLevel ∨ level = WarnLevel)) ∧
    Fire.out InfoLevel = Stream.Stdout ∧ Fire.out DebugLevel = Stream.Stdout ∧
    (Fire.out level = Stream.Stderr ∨ Fire.out level = Stream.Stdout) := by
  have hl : ∀ n : Nat, (n ≤ 3 ↔ n = 0 ∨ n = 1 ∨ n = 2 ∨ n = 3) := fun n => by omega
  unfold Fire.out PanicLevel FatalLevel ErrorLevel WarnLevel InfoLevel DebugLevel
  refine ⟨?_, ?_, by decide, by decide, ?_⟩
  · rw [← hl level]
    by_cases h : level ≤ 3 <;> simp [h]
  · rw [← hl level]
    by_cases h : level ≤ 3 <;> simp [h]
  · by_cases h : level ≤ 3 <;> simp [h]

/-- C2: with colour disabled and a non-negative width, `printEntry` appends
exactly the timestamp, a space, the module name fitted to the width between
square brackets, a space, the four-byte level abbreviation, two spaces, the
message and a newline; for a time with the year in 0..9999 the timestamp is
the 23 bytes YYYY-MM-DDTHH:MM:SS.mmm, the fraction being the milliseconds.
Here `name` is the module name that `getModuleName` returns for the record. -/
theorem C2_plain_line (buf : GoString) (e : Entry) (width : Int)
    (name : GoString) (hname : getModuleName e = .ok name) (h : 0 ≤ width) :
    printEntry buf e false width =
      .ok (buf ++ e.Time.Format ++ ascii " " ++ ascii "["
        ++ (if name.length > width.toNat then name.take width.toNat
            else List.replicate (width.toNat - name.length) 32 ++ name)
        ++ ascii "]" ++ ascii " " ++ (toUpper (Level.String e.Level)).take 4 ++ ascii "  "
        ++ e.Message ++ ascii "\n") ∧
    (0 ≤ e.Time.year ∧ e.Time.year ≤ 9999 ∧ e.Time.month ≤ 12 ∧ e.Time.day ≤ 31 ∧
        e.Time.hour ≤ 23 ∧ e.Time.minute ≤ 59 ∧ e.Time.second ≤ 59 ∧
        e.Time.nanosecond ≤ 999999999 →
      e.Time.Format.length = 23 ∧
      e.Time.Format =
        fixedDigits 4 e.Time.year.toNat ++ ascii "-" ++ fixedDigits 2 e.Time.month ++ ascii "-"
          ++ fixedDigits 2 e.Time.day ++ ascii "T" ++ fixedDigits 2 e.Time.hour ++ ascii ":"
          ++ fixedDigits 2 e.Time.minute ++ ascii ":" ++ fixedDigits 2 e.Time.second ++ ascii "."
          ++ fixedDigits 3 (e.Time.nanosecond / 1000000)) := by
  constructor
  · rw [printEntry_eq buf e false width name hname h]
    simp [ascii]
  · rintro ⟨hy0, hy, hmo, hd, hh, hmi, hs, hn⟩
    have hfmt := format_fixed e.Time hy0 hy hmo hd hh hmi hs hn
    refine ⟨?_, hfmt⟩
    rw [hfmt]
    simp only [List.length_append, fixedDigits_length]
    rfl

/-- C2, end-to-end example: the record of 2024-03-01T10:15:30.123, level Error,
module `db`, message `conn lost`, width 4, gives the line of the specification
and is routed to the error stream. -/
theorem C2_plain_line_witness :
    (0 : Int) ≤ 4 ∧ getModuleName exampleEntry = .ok (ascii "db") ∧
    (0 ≤ exampleEntry.Time.year ∧ exampleEntry.Time.year ≤ 9999 ∧ exampleEntry.Time.month ≤ 12 ∧
      exampleEntry.Time.day ≤ 31 ∧ exampleEntry.Time.hour ≤ 23 ∧ exampleEntry.Time.minute ≤ 59 ∧
      exampleEntry.Time.second ≤ 59 ∧ exampleEntry.Time.nanosecond ≤ 999999999) ∧
    printEntry [] exampleEntry false 4 =
      .ok (ascii "2024-03-01T10:15:30.123 [  db] ERRO  conn lost\n") ∧
    exampleEntry.Time.Format = ascii "2024-03-01T10:15:30.123" ∧
    Fire.out exampleEntry.Level = Stream.Stderr :=
  ⟨by decide, by decide, by decide, (C2_plain_line [] exampleEntry 4 (ascii "db") (by decide) (by decide)).1.trans (by decide),
    ((C2_plain_line [] exampleEntry 4 (ascii "db") (by decide) (by decide)).2 (by decide)).2.trans (by decide),
    by decide⟩

/-- C3, as stated, fails: with the module name U+00E9 (two bytes, one
character) and width 3 the bracketed field is `[`, space, U+00E9, `]`, which
has 5 bytes but 4 characters, not 3 + 2. -/
theorem C3_characters_counterexample :
    printEntry [] accentEntry false 3 =
      .ok (ascii "2024-03-01T10:15:30.123 " ++ [0x5B, 0x20, 0xC3, 0xA9, 0x5D]
        ++ ascii " INFO  started\n") ∧
    runeCount [0x5B, 0x20, 0xC3, 0xA9, 0x5D] = 4 ∧
    runeCount [0x5B, 0x20, 0xC3, 0xA9, 0x5D] ≠ 3 + 2 := by
  decide

/-- C3, amended: for every module name and every width >= 0 the bracketed
module field of the line, brackets included, is exactly width + 2 bytes long;
when the module name has one-byte characters only, it is also exactly
width + 2 characters long.
Here `name` is the module name that `getModuleName` returns for the record. -/
theorem C3_field_length_bytes (buf : GoString) (e : Entry) (colored : Bool) (width : Int)
    (name : GoString) (hname : getModuleName e = .ok name) (h : 0 ≤ width) :
    ∃ mid rest : GoString,
      printEntry buf e colored width =
        .ok (buf ++ e.Time.Format ++ ascii " " ++ (ascii "[" ++ mid ++ ascii "]") ++ ascii " "
          ++ rest) ∧
      ((ascii "[" ++ mid ++ ascii "]").length : Int) = width + 2 ∧
      ((∀ b ∈ name, b < 0x80) →
        (runeCount (ascii "[" ++ mid ++ ascii "]") : Int) = width + 2) := by
  have hlen := fitted_length name width.toNat
  obtain ⟨rest, hrest⟩ := printEntry_field buf e colored width name hname h
  refine ⟨_, rest, hrest, ?_, ?_⟩
  · simp only [List.length_append, hlen]
    have h1 : (ascii "[").length = 1 := by decide
    have h2 : (ascii "]").length = 1 := by decide
    rw [h1, h2]
    omega
  · intro hascii
    rw [runeCount_ascii]
    · simp only [List.length_append, hlen]
      have h1 : (ascii "[").length = 1 := by decide
      have h2 : (ascii "]").length = 1 := by decide
      rw [h1, h2]
      omega
    · intro b hb
      simp only [List.mem_append] at hb
      rcases hb with (hb | hb) | hb
      · have h1 : ∀ c ∈ ascii "[", c < 0x80 := by decide
        exact h1 b hb
      · split at hb
        · exact hascii b (List.mem_of_mem_take hb)
        · rcases List.mem_append.mp hb with hb | hb
          · rw [(List.mem_replicate.mp hb).2]; decide
          · exact hascii b hb
      · have h1 : ∀ c ∈ ascii "]", c < 0x80 := by decide
        exact h1 b hb

/-- C3, amended, at the record with module name U+00E9 and width 3. -/
theorem C3_field_length_bytes_witness :
    (0 : Int) ≤ 3 ∧ getModuleName accentEntry = .ok ([0xC3, 0xA9] : GoString) ∧
    ∃ mid rest : GoString,
      printEntry [] accentEntry false 3 =
        .ok ([] ++ accentEntry.Time.Format ++ ascii " " ++ (ascii "[" ++ mid ++ ascii "]")
          ++ ascii " " ++ rest) ∧
      ((ascii "[" ++ mid ++ ascii "]").length : Int) = 3 + 2 ∧
      ((∀ b ∈ ([0xC3, 0xA9] : GoString), b < 0x80) →
        (runeCount (ascii "[" ++ mid ++ ascii "]") : Int) = 3 + 2) :=
  ⟨by decide, by decide, C3_field_length_bytes [] accentEntry false 3 ([0xC3, 0xA9] : GoString) (by decide) (by decide)⟩

/-- C4, as stated, fails: the module name made of U+00E9 twice has 2
characters, fewer than the width 3, yet the text between the brackets is not
one space followed by the name: it is the first 3 bytes of the name, a cut
that falls inside the second character. -/
theorem C4_characters_counterexample :
    getModuleName twoAccentEntry = .ok [0xC3, 0xA9, 0xC3, 0xA9] ∧
    runeCount [0xC3, 0xA9, 0xC3, 0xA9] = 2 ∧
    printEntry [] twoAccentEntry false 3 =
      .ok (ascii "2024-03-01T10:15:30.123 [" ++ [0xC3, 0xA9, 0xC3] ++ ascii "] INFO  started\n") ∧
    [0xC3, 0xA9, 0xC3] ≠
      List.replicate (3 - runeCount [0xC3, 0xA9, 0xC3, 0xA9]) 32
        ++ [0xC3, 0xA9, 0xC3, 0xA9] := by
  decide

/-- C4, amended: with lengths measured in bytes, for every module name and
width >= 0, a name longer than the width appears between the brackets as its
first `width` bytes, and a shorter name appears as `width - len` spaces
followed by the whole name.
Here `name` is the module name that `getModuleName` returns for the record. -/
theorem C4_fit_bytes (buf : GoString) (e : Entry) (colored : Bool) (width : Int)
    (name : GoString) (hname : getModuleName e = .ok name) (h : 0 ≤ width) :
    ((name.length : Int) > width →
      ∃ rest : GoString, printEntry buf e colored width =
        .ok (buf ++ e.Time.Format ++ ascii " "
          ++ (ascii "[" ++ name.take width.toNat ++ ascii "]") ++ ascii " " ++ rest)) ∧
    ((name.length : Int) < width →
      ∃ rest : GoString, printEntry buf e colored width =
        .ok (buf ++ e.Time.Format ++ ascii " "
          ++ (ascii "[" ++ (List.replicate (width.toNat - name.length) 32
              ++ name) ++ ascii "]") ++ ascii " " ++ rest)) := by
  obtain ⟨rest, hrest⟩ := printEntry_field buf e colored width name hname h
  constructor
  · intro hgt
    have h1 : name.length > width.toNat := by omega
    rw [if_pos h1] at hrest
    exact ⟨rest, hrest⟩
  · intro hlt
    have h1 : ¬ name.length > width.toNat := by omega
    rw [if_neg h1] at hrest
    exact ⟨rest, hrest⟩

/-- C4, amended, at the two examples of the specification: `abcdefgh` with
width 3 gives `[abc]` and `ab` with width 5 gives `[   ab]`. -/
theorem C4_fit_bytes_witness :
    ((0 : Int) ≤ 3 ∧ getModuleName longNameEntry = .ok (ascii "abcdefgh") ∧
      ((ascii "abcdefgh").length : Int) > 3 ∧
      (∃ rest : GoString, printEntry [] longNameEntry false 3 =
        .ok ([] ++ longNameEntry.Time.Format ++ ascii " "
          ++ (ascii "[" ++ (ascii "abcdefgh").take (3 : Int).toNat ++ ascii "]")
          ++ ascii " " ++ rest)) ∧
      printEntry [] longNameEntry false 3 =
        .ok (ascii "2024-03-01T10:15:30.123 [abc] INFO  started\n")) ∧
    ((0 : Int) ≤ 5 ∧ getModuleName shortNameEntry = .ok (ascii "ab") ∧
      ((ascii "ab").length : Int) < 5 ∧
      (∃ rest : GoString, printEntry [] shortNameEntry false 5 =
        .ok ([] ++ shortNameEntry.Time.Format ++ ascii " "
          ++ (ascii "[" ++ (List.replicate ((5 : Int).toNat - (ascii "ab").length) 32
              ++ (ascii "ab")) ++ ascii "]") ++ ascii " " ++ rest)) ∧
      printEntry [] shortNameEntry false 5 =
        .ok (ascii "2024-03-01T10:15:30.123 [   ab] INFO  started\n")) :=
  ⟨⟨by decide, by decide, by decide, (C4_fit_bytes [] longNameEntry false 3 (ascii "abcdefgh") (by decide) (by decide)).1 (by decide),
      by decide⟩,
    ⟨by decide, by decide, by decide, (C4_fit_bytes [] shortNameEntry false 5 (ascii "ab") (by decide) (by decide)).2 (by decide),
      by decide⟩⟩

/-- C5, as stated, fails: with colour disabled, a message that contains the
escape byte is written verbatim, so the output contains the escape byte. -/
theorem C5_escape_in_message_counterexample :
    printEntry [] escMessageEntry false 4 =
      .ok (ascii "2024-03-01T10:15:30.123 [  db] INFO  a\x1bb\n") ∧
    ESC ∈ ascii "2024-03-01T10:15:30.123 [  db] INFO  a\x1bb\n" := by
  decide

/-- C5, amended: with colour disabled, `printEntry` adds no escape byte: for
every record whose module name and message contain no escape byte, and every
width >= 0, the output contains no escape byte.
Here `name` is the module name that `getModuleName` returns for the record. -/
theorem C5_plain_adds_no_ESC (e : Entry) (width : Int)
    (name : GoString) (hname : getModuleName e = .ok name) (h : 0 ≤ width)
    (hmod : ESC ∉ name) (hmsg : ESC ∉ e.Message) :
    ∃ out : GoString, printEntry [] e false width = .ok out ∧ ESC ∉ out := by
  refine ⟨_, printEntry_eq [] e false width name hname h, ?_⟩
  have hts := format_noESC e.Time
  have hfit := fitted_noESC name width.toNat hmod
  have hlv := levelText_noESC e.Level
  have h1 : ESC ∉ ascii " " := by decide
  have h2 : ESC ∉ ascii "[" := by decide
  have h3 : ESC ∉ ascii "] " := by decide
  have h4 : ESC ∉ ascii "  " := by decide
  have h5 : ESC ∉ ascii "\n" := by decide
  simp only [Bool.false_eq_true, if_false]
  generalize e.Time.Format = ts at hts ⊢
  generalize (if name.length > width.toNat then name.take width.toNat
    else List.replicate (width.toNat - name.length) 32 ++ name) = fit
    at hfit ⊢
  generalize (toUpper (Level.String e.Level)).take 4 = abbr at hlv ⊢
  generalize e.Message = msg at hmsg ⊢
  generalize ascii " " = s1 at h1 ⊢
  generalize ascii "[" = s2 at h2 ⊢
  generalize ascii "] " = s3 at h3 ⊢
  generalize ascii "  " = s4 at h4 ⊢
  generalize ascii "\n" = s5 at h5 ⊢
  simp only [List.mem_append, List.not_mem_nil]
  tauto

/-- C5, amended, at the end-to-end example record (module `db`, message
`conn lost`, width 4). -/
theorem C5_plain_adds_no_ESC_witness :
    (0 : Int) ≤ 4 ∧ getModuleName exampleEntry = .ok (ascii "db") ∧ ESC ∉ (ascii "db") ∧ ESC ∉ exampleEntry.Message ∧
    ∃ out : GoString, printEntry [] exampleEntry false 4 = .ok out ∧ ESC ∉ out :=
  ⟨by decide, by decide, by decide, by decide,
    C5_plain_adds_no_ESC exampleEntry 4 (ascii "db") (by decide) (by decide) (by decide) (by decide)⟩

/-- C6, as stated, fails: with colour enabled, a message that is itself the
reset sequence ESC `[0m` is written verbatim, so the output contains the
suffix twice. -/
theorem C6_second_suffix_counterexample :
    printEntry [] resetMessageEntry true 4 =
      .ok (ascii "2024-03-01T10:15:30.123 [  db] \x1b[34mINFO\x1b[0m  \x1b[0m\n") ∧
    countInfix (ascii "\x1b[0m")
      (ascii "2024-03-01T10:15:30.123 [  db] \x1b[34mINFO\x1b[0m  \x1b[0m\n") = 2 := by
  decide

/-- C6, amended: with colour enabled, for every record whose module name and
message contain no escape byte, and every width >= 0, the output contains
exactly one prefix ESC `[` code `m` and exactly one suffix ESC `[0m`, with
exactly the four-byte level abbreviation between them, and no other escape
byte.
Here `name` is the module name that `getModuleName` returns for the record. -/
theorem C6_single_wrapper (e : Entry) (width : Int)
    (name : GoString) (hname : getModuleName e = .ok name) (h : 0 ≤ width)
    (hmod : ESC ∉ name) (hmsg : ESC ∉ e.Message) :
    ∃ pre code post out : GoString,
      printEntry [] e true width = .ok out ∧
      out = pre ++ (ascii "\x1b[" ++ code ++ ascii "m")
        ++ (toUpper (Level.String e.Level)).take 4 ++ ascii "\x1b[0m" ++ post ∧
      ((toUpper (Level.String e.Level)).take 4).length = 4 ∧
      ESC ∉ pre ∧ ESC ∉ code ∧ ESC ∉ post ∧
      countInfix (ascii "\x1b[" ++ code ++ ascii "m") out = 1 ∧
      countInfix (ascii "\x1b[0m") out = 1 ∧
      List.count ESC out = 2 := by
  obtain ⟨c2, hc2, hcode⟩ := levelColor_digits e.Level
  have hts := format_noESC e.Time
  have hfit := fitted_noESC name width.toNat hmod
  have hlv := levelText_noESC e.Level
  have hlen : ((toUpper (Level.String e.Level)).take 4).length = 4 := by
    rw [List.length_take]
    exact min_eq_left (levelText_length e.Level)
  have hout := printEntry_eq [] e true width name hname h
  rw [hcode] at hout
  simp only [if_true] at hout
  generalize e.Time.Format = ts at hts hout
  generalize (if name.length > width.toNat then name.take width.toNat
    else List.replicate (width.toNat - name.length) 32 ++ name) = fit
    at hfit hout
  generalize (toUpper (Level.String e.Level)).take 4 = abbr at hlv hlen hout ⊢
  generalize e.Message = msg at hmsg hout
  have hpre : ESC ∉ ts ++ ascii " " ++ (ascii "[" ++ fit ++ ascii "] ") := by
    have h1 : ESC ∉ ascii " " := by decide
    have h2 : ESC ∉ ascii "[" := by decide
    have h3 : ESC ∉ ascii "] " := by decide
    simp only [List.mem_append]
    tauto
  have hmid : ESC ∉ (0x5b : UInt8) :: 0x33 :: c2 :: 0x6d :: abbr := by
    have h1 : ESC ≠ (0x5b : UInt8) := by decide
    have h2 : ESC ≠ (0x33 : UInt8) := by decide
    have h3 : ESC ≠ (0x6d : UInt8) := by decide
    simp only [List.mem_cons]
    tauto
  have hpost : ESC ∉ ascii "  " ++ (msg ++ ascii "\n") := by
    have h1 : ESC ∉ ascii "  " := by decide
    have h2 : ESC ∉ ascii "\n" := by decide
    simp only [List.mem_append]
    tauto
  have htail : ESC ∉ (0x5b : UInt8) :: 0x30 :: 0x6d :: (ascii "  " ++ (msg ++ ascii "\n")) := by
    have h1 : ESC ≠ (0x5b : UInt8) := by decide
    have h2 : ESC ≠ (0x30 : UInt8) := by decide
    have h3 : ESC ≠ (0x6d : UInt8) := by decide
    simp only [List.mem_cons]
    tauto
  have hshape : [] ++ (ts ++ ascii " ") ++ (ascii "[" ++ fit ++ ascii "] ")
        ++ (ascii "\x1b[" ++ [0x33, c2] ++ ascii "m" ++ abbr ++ ascii "\x1b[0m" ++ ascii "  ")
        ++ (msg ++ ascii "\n") =
      (ts ++ ascii " " ++ (ascii "[" ++ fit ++ ascii "] "))
        ++ ESC :: (((0x5b : UInt8) :: 0x33 :: c2 :: 0x6d :: abbr)
          ++ ESC :: ((0x5b : UInt8) :: 0x30 :: 0x6d :: (ascii "  " ++ (msg ++ ascii "\n")))) := by
    have e1 : ascii "\x1b[" = [ESC, 0x5b] := by decide
    have e2 : ascii "m" = [0x6d] := by decide
    have e3 : ascii "\x1b[0m" = [ESC, 0x5b, 0x30, 0x6d] := by decide
    rw [e1, e2, e3]
    simp only [List.append_assoc, List.cons_append, List.nil_append]
  rw [hshape] at hout
  refine ⟨ts ++ ascii " " ++ (ascii "[" ++ fit ++ ascii "] "), [0x33, c2],
    ascii "  " ++ (msg ++ ascii "\n"), _, hout, ?_, hlen, hpre, ?_, hpost, ?_, ?_, ?_⟩
  · have e1 : ascii "\x1b[" = [ESC, 0x5b] := by decide
    have e2 : ascii "m" = [0x6d] := by decide
    have e3 : ascii "\x1b[0m" = [ESC, 0x5b, 0x30, 0x6d] := by decide
    rw [e1, e2, e3]
    simp only [List.append_assoc, List.cons_append, List.nil_append]
  · have h2 : ESC ≠ (0x33 : UInt8) := by decide
    simp only [List.mem_cons, List.not_mem_nil]
    tauto
  · have e1 : ascii "\x1b[" ++ [0x33, c2] ++ ascii "m" = ESC :: [0x5b, 0x33, c2, 0x6d] := by
      have e1 : ascii "\x1b[" = [ESC, 0x5b] := by decide
      have e2 : ascii "m" = [0x6d] := by decide
      rw [e1, e2]
      rfl
    rw [e1, countInfix_two ESC _ _ _ _ hpre hmid htail]
    simp [List.isPrefixOf]
  · have e3 : ascii "\x1b[0m" = ESC :: [0x5b, 0x30, 0x6d] := by decide
    rw [e3, countInfix_two ESC _ _ _ _ hpre hmid htail]
    simp [List.isPrefixOf]
  · exact count_two ESC _ _ _ hpre hmid htail

/-- C6, amended, at the end-to-end example record with colour enabled. -/
theorem C6_single_wrapper_witness :
    (0 : Int) ≤ 4 ∧ getModuleName exampleEntry = .ok (ascii "db") ∧ ESC ∉ (ascii "db") ∧ ESC ∉ exampleEntry.Message ∧
    ∃ pre code post out : GoString,
      printEntry [] exampleEntry true 4 = .ok out ∧
      out = pre ++ (ascii "\x1b[" ++ code ++ ascii "m")
        ++ (toUpper (Level.String exampleEntry.Level)).take 4 ++ ascii "\x1b[0m" ++ post ∧
      ((toUpper (Level.String exampleEntry.Level)).take 4).length = 4 ∧
      ESC ∉ pre ∧ ESC ∉ code ∧ ESC ∉ post ∧
      countInfix (ascii "\x1b[" ++ code ++ ascii "m") out = 1 ∧
      countInfix (ascii "\x1b[0m") out = 1 ∧
      List.count ESC out = 2 :=
  ⟨by decide, by decide, by decide, by decide,
    C6_single_wrapper exampleEntry 4 (ascii "db") (by decide) (by decide) (by decide) (by decide)⟩

/-- C7: with colour enabled the prefix is ESC `[` code `m`, where the code
depends on the level alone: 37 for Debug, 33 for Warn, 31 for Error, Fatal and
Panic, 34 for Info and every other value; the suffix is always ESC `[0m`.
Here `name` is the module name that `getModuleName` returns for the record. -/
theorem C7_colour_code (buf : GoString) (e : Entry) (width : Int)
    (name : GoString) (hname : getModuleName e = .ok name) (h : 0 ≤ width) :
    printEntry buf e true width =
      .ok (buf ++ e.Time.Format ++ ascii " " ++ ascii "["
        ++ (if name.length > width.toNat then name.take width.toNat
            else List.replicate (width.toNat - name.length) 32 ++ name)
        ++ ascii "] "
        ++ (ascii "\x1b["
          ++ (if e.Level = DebugLevel then ascii "37"
              else if e.Level = WarnLevel then ascii "33"
              else if e.Level = ErrorLevel ∨ e.Level = FatalLevel ∨ e.Level = PanicLevel then
                ascii "31"
              else ascii "34")
          ++ ascii "m")
        ++ (toUpper (Level.String e.Level)).take 4 ++ ascii "\x1b[0m" ++ ascii "  "
        ++ e.Message ++ ascii "\n") := by
  have hcode : strconvItoa
        (if e.Level = DebugLevel then gray
         else if e.Level = WarnLevel then yellow
         else if e.Level = ErrorLevel ∨ e.Level = FatalLevel ∨ e.Level = PanicLevel then red
         else blue) =
      (if e.Level = DebugLevel then ascii "37"
       else if e.Level = WarnLevel then ascii "33"
       else if e.Level = ErrorLevel ∨ e.Level = FatalLevel ∨ e.Level = PanicLevel then ascii "31"
       else ascii "34") := by
    split_ifs <;> decide
  rw [printEntry_eq buf e true width name hname h, hcode]
  simp only [if_true, List.append_assoc]

/-- C7 at the end-to-end example record: level Error is wrapped in code 31. -/
theorem C7_colour_code_witness :
    (0 : Int) ≤ 4 ∧ getModuleName exampleEntry = .ok (ascii "db") ∧
    printEntry [] exampleEntry true 4 =
      .ok (ascii "2024-03-01T10:15:30.123 [  db] \x1b[31mERRO\x1b[0m  conn lost\n") :=
  ⟨by decide, by decide, (C7_colour_code [] exampleEntry 4 (ascii "db") (by decide) (by decide)).trans (by decide)⟩

/-- C8: for every level value the abbreviation written by `printEntry` is
the first four bytes of the upper-cased level name, is four bytes and four
characters long and consists of upper-case letters: PANI, FATA, ERRO, WARN,
INFO, DEBU, and UNKN for any other value.
Here `name` is the module name that `getModuleName` returns for the record. -/
theorem C8_level_abbreviation (buf : GoString) (e : Entry) (colored : Bool) (width : Int)
    (name : GoString) (hname : getModuleName e = .ok name) (h : 0 ≤ width) :
    ∃ pre abbr post : GoString,
      printEntry buf e colored width = .ok (pre ++ abbr ++ post) ∧
      pre = buf ++ e.Time.Format ++ ascii " " ++ ascii "["
        ++ (if name.length > width.toNat then name.take width.toNat
            else List.replicate (width.toNat - name.length) 32 ++ name)
        ++ ascii "] "
        ++ (if colored then
              ascii "\x1b[" ++ strconvItoa
                (if e.Level = DebugLevel then gray
                 else if e.Level = WarnLevel then yellow
                 else if e.Level = ErrorLevel ∨ e.Level = FatalLevel ∨ e.Level = PanicLevel then red
                 else blue) ++ ascii "m"
            else []) ∧
      post = (if colored then ascii "\x1b[0m" else []) ++ ascii "  " ++ e.Message ++ ascii "\n" ∧
      abbr = (toUpper (Level.String e.Level)).take 4 ∧
      abbr = (if e.Level = PanicLevel then ascii "PANI"
              else if e.Level = FatalLevel then ascii "FATA"
              else if e.Level = ErrorLevel then ascii "ERRO"
              else if e.Level = WarnLevel then ascii "WARN"
              else if e.Level = InfoLevel then ascii "INFO"
              else if e.Level = DebugLevel then ascii "DEBU"
              else ascii "UNKN") ∧
      abbr.length = 4 ∧ runeCount abbr = 4 ∧ (∀ b ∈ abbr, 65 ≤ b ∧ b ≤ 90) := by
  refine ⟨_, (toUpper (Level.String e.Level)).take 4, _, ?_, rfl, rfl, rfl,
    levelText_cases e.Level, ?_, ?_, ?_⟩
  · rw [printEntry_eq buf e colored width name hname h]
    simp only [List.append_assoc]
  · rw [levelText_cases]
    split_ifs <;> decide
  · rw [levelText_cases]
    split_ifs <;> decide
  · rw [levelText_cases]
    split_ifs <;> decide

/-- C8 at the end-to-end example record: level Error is written as ERRO. -/
theorem C8_level_abbreviation_witness :
    (0 : Int) ≤ 4 ∧ getModuleName exampleEntry = .ok (ascii "db") ∧
    (toUpper (Level.String exampleEntry.Level)).take 4 = ascii "ERRO" ∧
    (toUpper (Level.String WarnLevel)).take 4 = ascii "WARN" ∧
    (toUpper (Level.String DebugLevel)).take 4 = ascii "DEBU" ∧
    ∃ pre abbr post : GoString,
      printEntry [] exampleEntry false 4 = .ok (pre ++ abbr ++ post) ∧ abbr = ascii "ERRO" := by
  obtain ⟨pre, abbr, post, hout, -, -, habbr, -⟩ :=
    C8_level_abbreviation [] exampleEntry false 4 (ascii "db") (by decide) (by decide)
  exact ⟨by decide, by decide, by decide, by decide, by decide, pre, abbr, post, hout,
    habbr.trans (by decide)⟩

/-- C9, as stated, fails: for a record whose `module` attribute is a nil
pointer with a `String()` method that reads the receiver, `getModuleName`
calls the method directly, the method panics, and `printEntry` at width 4
ends with that panic instead of a line. -/
theorem C9_string_method_counterexample :
    mapIndex nilPointerEntry.Data (ascii "module") = Value.nilPointer ∧
    getModuleName nilPointerEntry = .error Panic.stringMethod ∧
    printEntry [] nilPointerEntry false 4 = .error Panic.stringMethod ∧
    ¬ ∃ out : GoString, printEntry [] nilPointerEntry false 4 = .ok out := by
  refine ⟨by decide, by decide, by decide, ?_⟩
  rintro ⟨out, hout⟩
  have h : printEntry [] nilPointerEntry false 4 = .error Panic.stringMethod := by decide
  rw [h] at hout
  cases hout

/-- C9, amended: for every record, every level value and every width from 0
up to the allocation limit, `printEntry` returns a line exactly when
`getModuleName` returns the module name, and a panic of `printEntry` is the
panic that `getModuleName` ends with, which happens exactly when the `module`
attribute is not a string and its `String()` method panics; for a module
name that is returned, the slice `modStr[:modLength]` is in range when it is
taken, the repeat count is not negative and within the allocation limit when
`strings.Repeat` is called, and the slice `levelText[0:4]` is in range. -/
theorem C9_format_fails_only_in_String (buf : GoString) (e : Entry) (colored : Bool)
    (width : Int) (h : 0 ≤ width) (halloc : width ≤ maxAlloc) :
    ((∃ out : GoString, printEntry buf e colored width = .ok out) ↔
      ∃ name : GoString, getModuleName e = .ok name) ∧
    (∀ p : Panic, printEntry buf e colored width = .error p → getModuleName e = .error p) ∧
    ((∃ p : Panic, getModuleName e = .error p) ↔
      ∃ (d : Dynamic) (p : Panic), mapIndex e.Data (ascii "module") = some d ∧
        d.asString = none ∧ d.callString = some (.error p)) ∧
    (∀ name : GoString, getModuleName e = .ok name →
      ((name.length : Int) > width → sliceTo name width = .ok (name.take width.toNat)) ∧
      (¬ (name.length : Int) > width →
        0 ≤ width - (name.length : Int) ∧ width - (name.length : Int) ≤ maxAlloc ∧
        stringsRepeat (ascii " ") (width - (name.length : Int)) =
          .ok (List.replicate (width - (name.length : Int)).toNat 32))) ∧
    slice (toUpper (Level.String e.Level)) 0 4 = .ok ((toUpper (Level.String e.Level)).take 4) := by
  have herr : ∀ p : Panic, getModuleName e = .error p →
      printEntry buf e colored width = .error p := by
    intro p hp
    unfold printEntry
    rw [hp]
    cases colored <;> rfl
  refine ⟨?_, ?_, getModuleName_error_iff e, ?_, slice_levelText e.Level⟩
  · constructor
    · rintro ⟨out, hout⟩
      cases hn : getModuleName e with
      | ok name => exact ⟨name, rfl⟩
      | error p =>
        rw [herr p hn] at hout
        cases hout
    · rintro ⟨name, hname⟩
      exact ⟨_, printEntry_eq buf e colored width name hname h⟩
  · intro p hp
    cases hn : getModuleName e with
    | ok name =>
      rw [printEntry_eq buf e colored width name hn h] at hp
      cases hp
    | error q =>
      rw [herr q hn] at hp
      cases hp
      rfl
  · intro name _
    constructor
    · intro hgt
      exact sliceTo_ok _ width h (by omega)
    · intro hle
      have h2 : (0 : Int) ≤ width - (name.length : Int) := by omega
      exact ⟨h2, by omega, stringsRepeat_space _ h2⟩

/-- C9, amended, at a record without a `module` attribute and with an
unrecognised level value, width 3: the line is produced, with the rendering
of the absent value cut to the width and the abbreviation UNKN. -/
theorem C9_format_fails_only_in_String_witness :
    (0 : Int) ≤ 3 ∧ (3 : Int) ≤ maxAlloc ∧
    (((∃ out : GoString, printEntry [] bareEntry false 3 = .ok out) ↔
        ∃ name : GoString, getModuleName bareEntry = .ok name) ∧
      (∀ p : Panic, printEntry [] bareEntry false 3 = .error p →
        getModuleName bareEntry = .error p) ∧
      ((∃ p : Panic, getModuleName bareEntry = .error p) ↔
        ∃ (d : Dynamic) (p : Panic), mapIndex bareEntry.Data (ascii "module") = some d ∧
          d.asString = none ∧ d.callString = some (.error p)) ∧
      (∀ name : GoString, getModuleName bareEntry = .ok name →
        ((name.length : Int) > 3 → sliceTo name 3 = .ok (name.take (3 : Int).toNat)) ∧
        (¬ (name.length : Int) > 3 →
          0 ≤ (3 : Int) - (name.length : Int) ∧ (3 : Int) - (name.length : Int) ≤ maxAlloc ∧
          stringsRepeat (ascii " ") (3 - (name.length : Int)) =
            .ok (List.replicate ((3 : Int) - (name.length : Int)).toNat 32))) ∧
      slice (toUpper (Level.String bareEntry.Level)) 0 4 =
        .ok ((toUpper (Level.String bareEntry.Level)).take 4)) ∧
    getModuleName bareEntry = .ok (ascii "<nil>") ∧
    printEntry [] bareEntry false 3 = .ok (ascii "2024-03-01T10:15:30.123 [<ni] UNKN  hello\n") :=
  ⟨by decide, by decide,
    C9_format_fails_only_in_String [] bareEntry false 3 (by decide) (by decide),
    by decide, by decide⟩

/-- C10: the output of `printEntry` depends on the time, the level, the
message, the `module` attribute, the colour flag and the width only: two
records that agree on these four parts give the same result from the same
buffer, colour flag and width, whatever their other attributes are. -/
theorem C10_output_depends_on_read_fields (buf : GoString) (e1 e2 : Entry) (colored : Bool)
    (width : Int) (htime : e1.Time = e2.Time) (hlevel : e1.Level = e2.Level)
    (hmsg : e1.Message = e2.Message)
    (hmod : mapIndex e1.Data (ascii "module") = mapIndex e2.Data (ascii "module")) :
    printEntry buf e1 colored width = printEntry buf e2 colored width := by
  have hname : getModuleName e1 = getModuleName e2 := by
    unfold getModuleName
    rw [hmod]
  unfold printEntry
  rw [htime, hlevel, hmsg, hname]

/-- C10 at the end-to-end example record and the same record with two further
attributes: both give the line of the specification. -/
theorem C10_output_depends_on_read_fields_witness :
    exampleEntry.Data ≠ exampleEntryExtra.Data ∧
    exampleEntry.Time = exampleEntryExtra.Time ∧
    exampleEntry.Level = exampleEntryExtra.Level ∧
    exampleEntry.Message = exampleEntryExtra.Message ∧
    mapIndex exampleEntry.Data (ascii "module") = mapIndex exampleEntryExtra.Data (ascii "module") ∧
    printEntry [] exampleEntry false 4 = printEntry [] exampleEntryExtra false 4 ∧
    printEntry [] exampleEntryExtra false 4 =
      .ok (ascii "2024-03-01T10:15:30.123 [  db] ERRO  conn lost\n") :=
  ⟨by decide, by decide, by decide, by decide, by decide,
    C10_output_depends_on_read_fields [] exampleEntry exampleEntryExtra false 4
      (by decide) (by decide) (by decide) (by decide),
    by decide⟩

/-! ### The hook methods -/

/-- Result of `Fire` once the line is known: one write of the line to the
stream of the level; the error of that write, if one is returned, with its
context; the death of the process when the write meets a broken pipe. -/
theorem fire_eq (hook : consoleHook) (goos : GoString) (e : Entry) (o : WriteOutcome)
    (c : Console) (line : GoString)
    (hline : printEntry [] e (hook.logger.isTerminal && (goos != ascii "windows"))
      hook.logger.GetModuleLength = .ok line) :
    hook.Fire goos e o c =
      (match o with
        | WriteOutcome.complete => .ok (c.append (Fire.out e.Level) line, none)
        | WriteOutcome.failed written err =>
          .ok (c.append (Fire.out e.Level) (line.take written),
            some (ascii "Failed to write to log, " ++ err ++ ascii "\n"))
        | WriteOutcome.brokenPipe _ => .error Panic.sigpipe) := by
  unfold consoleHook.Fire
  simp only [hline]
  cases o <;> rfl

/-- C11: `Levels` returns the six severities Panic, Fatal, Error, Warn, Info
and Debug, each exactly once and nothing else, whatever the hook is. -/
theorem C11_levels_all_six (hook : consoleHook) :
    hook.Levels = [PanicLevel, FatalLevel, ErrorLevel, WarnLevel, InfoLevel, DebugLevel] ∧
    hook.Levels.length = 6 ∧ hook.Levels.Nodup ∧
    hook.Levels.count PanicLevel = 1 ∧ hook.Levels.count FatalLevel = 1 ∧
    hook.Levels.count ErrorLevel = 1 ∧ hook.Levels.count WarnLevel = 1 ∧
    hook.Levels.count InfoLevel = 1 ∧ hook.Levels.count DebugLevel = 1 ∧
    (∀ l : Level, l ∈ hook.Levels ↔
      l = PanicLevel ∨ l = FatalLevel ∨ l = ErrorLevel ∨ l = WarnLevel ∨ l = InfoLevel ∨
        l = DebugLevel) ∧
    (∀ other : consoleHook, other.Levels = hook.Levels) := by
  have hl : hook.Levels =
      [PanicLevel, FatalLevel, ErrorLevel, WarnLevel, InfoLevel, DebugLevel] := rfl
  rw [hl]
  refine ⟨rfl, by decide, by decide, by decide, by decide, by decide, by decide, by decide,
    by decide, ?_, fun _ => rfl⟩
  intro l
  simp

/-- C12, as stated, fails: when the write to the error stream meets a broken
pipe, the Go run time raises SIGPIPE and the process dies inside `Fire`, which
returns neither nil nor an error; and when the write fails on a full device,
the returned error text begins `Failed to write to log, ` with a capital F,
so the context `failed to write to log` does not occur in it. -/
theorem C12_broken_pipe_counterexample :
    plainHook.Fire (ascii "linux") exampleEntry pipeClosed emptyConsole = .error Panic.sigpipe ∧
    (¬ ∃ r : Console × Option GoString,
      plainHook.Fire (ascii "linux") exampleEntry pipeClosed emptyConsole = .ok r) ∧
    plainHook.Fire (ascii "linux") exampleEntry diskFull emptyConsole =
      .ok ({ stderr := ascii "2024-03-01", stdout := [] },
        some (ascii "Failed to write to log, write /dev/stderr: no space left on device\n")) ∧
    countInfix (ascii "failed to write to log")
      (ascii "Failed to write to log, write /dev/stderr: no space left on device\n") = 0 := by
  refine ⟨by decide, ?_, by decide, by decide⟩
  rintro ⟨r, hr⟩
  have h : plainHook.Fire (ascii "linux") exampleEntry pipeClosed emptyConsole =
      .error Panic.sigpipe := by decide
  rw [h] at hr
  cases hr

/-- C12, amended: at the write of the formatted line to the selected stream,
`Fire` returns nil exactly when the write completes, and returns an error
exactly when the write returns an error; the text of that error is
`Failed to write to log, ` followed by the text of the write error and a
newline, and the stream has received what that one write took and nothing
more; when the write meets a broken pipe, the process dies by SIGPIPE inside
`Fire`. -/
theorem C12_error_iff_write_fails (hook : consoleHook) (goos : GoString) (e : Entry)
    (o : WriteOutcome) (c : Console) (line : GoString)
    (hline : printEntry [] e (hook.logger.isTerminal && (goos != ascii "windows"))
      hook.logger.GetModuleLength = .ok line) :
    (o = WriteOutcome.complete →
      hook.Fire goos e o c = .ok (c.append (Fire.out e.Level) line, none)) ∧
    (∀ (written : Nat) (text : GoString), o = WriteOutcome.failed written text →
      hook.Fire goos e o c =
        .ok (c.append (Fire.out e.Level) (line.take written),
          some (ascii "Failed to write to log, " ++ text ++ ascii "\n"))) ∧
    (∀ written : Nat, o = WriteOutcome.brokenPipe written →
      hook.Fire goos e o c = .error Panic.sigpipe) ∧
    ((∃ c1 : Console, hook.Fire goos e o c = .ok (c1, none)) ↔ o = WriteOutcome.complete) ∧
    ((∃ (c1 : Console) (text : GoString), hook.Fire goos e o c = .ok (c1, some text)) ↔
      ∃ (written : Nat) (text : GoString), o = WriteOutcome.failed written text) := by
  have hfire := fire_eq hook goos e o c line hline
  cases o with
  | complete =>
    refine ⟨fun _ => hfire, ?_, ?_, ?_, ?_⟩
    · intro written text ho
      cases ho
    · intro written ho
      cases ho
    · exact ⟨fun _ => rfl, fun _ => ⟨_, hfire⟩⟩
    · constructor
      · rintro ⟨c1, text, hc⟩
        rw [hfire] at hc
        cases hc
      · rintro ⟨written, text, ho⟩
        cases ho
  | failed n t =>
    refine ⟨?_, ?_, ?_, ?_, ?_⟩
    · intro ho
      cases ho
    · intro written text ho
      cases ho
      exact hfire
    · intro written ho
      cases ho
    · constructor
      · rintro ⟨c1, hc⟩
        rw [hfire] at hc
        cases hc
      · intro ho
        cases ho
    · exact ⟨fun _ => ⟨n, t, rfl⟩, fun _ => ⟨_, _, hfire⟩⟩
  | brokenPipe n =>
    refine ⟨?_, ?_, ?_, ?_, ?_⟩
    · intro ho
      cases ho
    · intro written text ho
      cases ho
    · intro written _
      exact hfire
    · constructor
      · rintro ⟨c1, hc⟩
        rw [hfire] at hc
        cases hc
      · intro ho
        cases ho
    · constructor
      · rintro ⟨c1, text, hc⟩
        rw [hfire] at hc
        cases hc
      · rintro ⟨written, text, ho⟩
        cases ho

/-- C12, amended, at the end-to-end example record with a write to the error
stream that fails after 10 bytes on a full device. -/
theorem C12_error_iff_write_fails_witness :
    printEntry [] exampleEntry (plainHook.logger.isTerminal && (ascii "linux" != ascii "windows"))
      plainHook.logger.GetModuleLength =
        .ok (ascii "2024-03-01T10:15:30.123 [  db] ERRO  conn lost\n") ∧
    diskFull =
      WriteOutcome.failed 10 (ascii "write /dev/stderr: no space left on device") ∧
    plainHook.Fire (ascii "linux") exampleEntry diskFull emptyConsole =
      .ok (emptyConsole.append (Fire.out exampleEntry.Level)
          ((ascii "2024-03-01T10:15:30.123 [  db] ERRO  conn lost\n").take 10),
        some (ascii "Failed to write to log, "
          ++ ascii "write /dev/stderr: no space left on device" ++ ascii "\n")) :=
  ⟨by decide, by decide,
    (C12_error_iff_write_fails plainHook (ascii "linux") exampleEntry diskFull emptyConsole
      (ascii "2024-03-01T10:15:30.123 [  db] ERRO  conn lost\n") (by decide)).2.1 10
      (ascii "write /dev/stderr: no space left on device") (by decide)⟩

/-- C13: with the two streams as byte sequences, a `Fire` whose write
completes appends exactly the bytes that `printEntry` produces for the record
to the stream selected by the level of the record, and leaves the other
stream as it was.
Here `name` is the module name that `getModuleName` returns for the record. -/
theorem C13_fire_appends_line (hook : consoleHook) (goos : GoString) (e : Entry) (c : Console)
    (name : GoString) (hname : getModuleName e = .ok name)
    (h : 0 ≤ hook.logger.GetModuleLength) :
    ∃ (line : GoString) (c1 : Console),
      printEntry [] e (hook.logger.isTerminal && (goos != ascii "windows"))
        hook.logger.GetModuleLength = .ok line ∧
      hook.Fire goos e WriteOutcome.complete c = .ok (c1, none) ∧
      (Fire.out e.Level = Stream.Stderr →
        c1.stderr = c.stderr ++ line ∧ c1.stdout = c.stdout) ∧
      (Fire.out e.Level = Stream.Stdout →
        c1.stdout = c.stdout ++ line ∧ c1.stderr = c.stderr) := by
  have hline := printEntry_eq [] e (hook.logger.isTerminal && (goos != ascii "windows"))
    hook.logger.GetModuleLength name hname h
  refine ⟨_, _, hline, fire_eq hook goos e WriteOutcome.complete c _ hline, ?_, ?_⟩
  · intro hout
    rw [hout]
    exact ⟨rfl, rfl⟩
  · intro hout
    rw [hout]
    exact ⟨rfl, rfl⟩

/-- C13 at the end-to-end example record (level Error) on a console with
earlier output: the line is added to the error stream only. -/
theorem C13_fire_appends_line_witness :
    (0 : Int) ≤ plainHook.logger.GetModuleLength ∧
    getModuleName exampleEntry = .ok (ascii "db") ∧
    (∃ (line : GoString) (c1 : Console),
      printEntry [] exampleEntry (plainHook.logger.isTerminal && (ascii "linux" != ascii "windows"))
        plainHook.logger.GetModuleLength = .ok line ∧
      plainHook.Fire (ascii "linux") exampleEntry WriteOutcome.complete usedConsole =
        .ok (c1, none) ∧
      (Fire.out exampleEntry.Level = Stream.Stderr →
        c1.stderr = usedConsole.stderr ++ line ∧ c1.stdout = usedConsole.stdout) ∧
      (Fire.out exampleEntry.Level = Stream.Stdout →
        c1.stdout = usedConsole.stdout ++ line ∧ c1.stderr = usedConsole.stderr)) ∧
    plainHook.Fire (ascii "linux") exampleEntry WriteOutcome.complete usedConsole =
      .ok ({ stderr := ascii "old error\n2024-03-01T10:15:30.123 [  db] ERRO  conn lost\n",
             stdout := ascii "old output\n" }, none) :=
  ⟨by decide, by decide,
    C13_fire_appends_line plainHook (ascii "linux") exampleEntry usedConsole (ascii "db")
      (by decide) (by decide),
    by decide⟩

/-- C15, as stated, fails: for an attribute that is a nil pointer with a
`String()` method that reads the receiver, `getModuleName` calls the method,
which panics, and the function ends with that panic, although the generic
rendering of the same value would have been `<nil>`. -/
theorem C15_string_method_counterexample :
    mapIndex nilPointerEntry.Data (ascii "module") = Value.nilPointer ∧
    getModuleName nilPointerEntry = .error Panic.stringMethod ∧
    fmtSprintV (mapIndex nilPointerEntry.Data (ascii "module")) = ascii "<nil>" := by
  decide

/-- C15, amended: `getModuleName` resolves the `module` attribute by its
dynamic type, in this order: a string is returned as it is, whatever else the
value offers; otherwise a value with a `String()` method gives the outcome of
calling that method, its text or its panic; otherwise the generic rendering of
the value is returned, and the nil value, in particular a missing attribute,
gives `<nil>`.  The function fails exactly when the attribute is not a string
and its `String()` method panics. -/
theorem C15_module_name_cases (e : Entry) :
    (∀ (d : Dynamic) (s : GoString), mapIndex e.Data (ascii "module") = some d →
      d.asString = some s → getModuleName e = .ok s) ∧
    (∀ (d : Dynamic) (r : Except Panic GoString), mapIndex e.Data (ascii "module") = some d →
      d.asString = none → d.callString = some r → getModuleName e = r) ∧
    (∀ d : Dynamic, mapIndex e.Data (ascii "module") = some d →
      d.asString = none → d.callString = none → getModuleName e = .ok d.sprint) ∧
    (mapIndex e.Data (ascii "module") = none → getModuleName e = .ok (ascii "<nil>")) ∧
    (e.Data.lookup (ascii "module") = none → getModuleName e = .ok (ascii "<nil>")) ∧
    ((∃ p : Panic, getModuleName e = .error p) ↔
      ∃ (d : Dynamic) (p : Panic), mapIndex e.Data (ascii "module") = some d ∧
        d.asString = none ∧ d.callString = some (.error p)) ∧
    ((∃ name : GoString, getModuleName e = .ok name) ↔
      ¬ ∃ (d : Dynamic) (p : Panic), mapIndex e.Data (ascii "module") = some d ∧
        d.asString = none ∧ d.callString = some (.error p)) := by
  refine ⟨?_, ?_, ?_, ?_, ?_, getModuleName_error_iff e, ?_⟩
  · intro d s hd hs
    unfold getModuleName
    simp only [hd, hs]
  · intro d r hd hs hc
    unfold getModuleName
    simp only [hd, hs, hc]
  · intro d hd hs hc
    unfold getModuleName
    simp only [hd, hs, hc]
    rfl
  · intro hn
    unfold getModuleName
    simp only [hn]
    rfl
  · intro hn
    have hm : mapIndex e.Data (ascii "module") = none := by
      unfold mapIndex
      rw [hn]
    unfold getModuleName
    simp only [hm]
    rfl
  · rw [← getModuleName_error_iff e]
    cases hg : getModuleName e with
    | ok name =>
      constructor
      · rintro - ⟨p, hp⟩
        cases hp
      · intro _
        exact ⟨name, rfl⟩
    | error p =>
      constructor
      · rintro ⟨name, hn⟩
        cases hn
      · intro hnot
        exact absurd ⟨p, rfl⟩ hnot

/-- C15, amended, at four records: an attribute that is both a string and a
`fmt.Stringer` gives the string, one that is only a `fmt.Stringer` gives the
text of `String()`, a missing attribute gives `<nil>`, and the example record
gives `db`. -/
theorem C15_module_name_cases_witness :
    (mapIndex stringFirstEntry.Data (ascii "module") =
        some { asString := some (ascii "db"), callString := some (.ok (ascii "other")),
               sprint := ascii "db" } ∧
      getModuleName stringFirstEntry = .ok (ascii "db")) ∧
    (mapIndex stringerEntry.Data (ascii "module") =
        some { asString := none, callString := some (.ok (ascii "net")), sprint := ascii "net" } ∧
      getModuleName stringerEntry = .ok (ascii "net")) ∧
    (bareEntry.Data.lookup (ascii "module") = none ∧
      getModuleName bareEntry = .ok (ascii "<nil>")) ∧
    getModuleName exampleEntry = .ok (ascii "db") :=
  ⟨⟨by decide,
      (C15_module_name_cases stringFirstEntry).1
        { asString := some (ascii "db"), callString := some (.ok (ascii "other")),
          sprint := ascii "db" } (ascii "db") (by decide) rfl⟩,
    ⟨by decide,
      (C15_module_name_cases stringerEntry).2.1
        { asString := none, callString := some (.ok (ascii "net")), sprint := ascii "net" }
        (.ok (ascii "net")) (by decide) rfl rfl⟩,
    ⟨by decide, (C15_module_name_cases bareEntry).2.2.2.2.1 (by decide)⟩,
    by decide⟩

/-- The coloured line is 9 bytes longer than the plain line. -/
theorem coloured_longer (buf : GoString) (e : Entry) (w : Int)
    (name : GoString) (hname : getModuleName e = .ok name) (h : 0 ≤ w) :
    ∃ plain coloured : GoString,
      printEntry buf e false w = .ok plain ∧ printEntry buf e true w = .ok coloured ∧
      coloured.length = plain.length + 9 := by
  obtain ⟨c2, -, hcode⟩ := levelColor_digits e.Level
  have hplain := printEntry_eq buf e false w name hname h
  have hcol := printEntry_eq buf e true w name hname h
  rw [hcode] at hcol
  refine ⟨_, _, hplain, hcol, ?_⟩
  simp only [Bool.false_eq_true, if_false, if_true, List.length_append, List.length_nil]
  have h1 : (ascii "\x1b[").length = 2 := by decide
  have h2 : (ascii "m").length = 1 := by decide
  have h3 : (ascii "\x1b[0m").length = 4 := by decide
  rw [h1, h2, h3]
  simp only [List.length_cons, List.length_nil]
  omega

/-- C16: `Fire` formats with colour exactly when the logger reports a
terminal and the operating system is not windows: the bytes written are the
coloured line in that case and the plain line otherwise; on windows they are
the plain line whatever the terminal flag is, and on any other system the
flag passed to `printEntry` is the terminal flag of the logger.
Here `name` is the module name that `getModuleName` returns for the record. -/
theorem C16_colour_policy (hook : consoleHook) (goos : GoString) (e : Entry) (c : Console)
    (name : GoString) (hname : getModuleName e = .ok name)
    (h : 0 ≤ hook.logger.GetModuleLength) :
    ∃ plain coloured : GoString,
      printEntry [] e false hook.logger.GetModuleLength = .ok plain ∧
      printEntry [] e true hook.logger.GetModuleLength = .ok coloured ∧
      plain ≠ coloured ∧
      hook.Fire goos e WriteOutcome.complete c =
        .ok (c.append (Fire.out e.Level)
          (if hook.logger.isTerminal = true ∧ goos ≠ ascii "windows" then coloured else plain),
          none) ∧
      (goos = ascii "windows" →
        hook.Fire goos e WriteOutcome.complete c =
          .ok (c.append (Fire.out e.Level) plain, none)) ∧
      (goos ≠ ascii "windows" →
        (hook.logger.isTerminal && (goos != ascii "windows")) = hook.logger.isTerminal) := by
  obtain ⟨plain, coloured, hplain, hcol, hlen⟩ :=
    coloured_longer [] e hook.logger.GetModuleLength name hname h
  have hne : plain ≠ coloured := by
    intro heq
    rw [heq] at hlen
    omega
  refine ⟨plain, coloured, hplain, hcol, hne, ?_, ?_, ?_⟩
  · by_cases hflag : hook.logger.isTerminal = true ∧ goos ≠ ascii "windows"
    · have hb : (hook.logger.isTerminal && (goos != ascii "windows")) = true := by
        simp [hflag.1, hflag.2]
      rw [if_pos hflag]
      exact fire_eq hook goos e WriteOutcome.complete c coloured (by rw [hb]; exact hcol)
    · have hb : (hook.logger.isTerminal && (goos != ascii "windows")) = false := by
        by_cases ht : hook.logger.isTerminal = true
        · have hw : goos = ascii "windows" := by
            by_contra hw
            exact hflag ⟨ht, hw⟩
          simp [hw]
        · simp [ht]
      rw [if_neg hflag]
      exact fire_eq hook goos e WriteOutcome.complete c plain (by rw [hb]; exact hplain)
  · intro hw
    have hb : (hook.logger.isTerminal && (goos != ascii "windows")) = false := by
      simp [hw]
    exact fire_eq hook goos e WriteOutcome.complete c plain (by rw [hb]; exact hplain)
  · intro hw
    simp [hw]

/-- C16 at the end-to-end example record with a logger on a terminal: on
windows the plain line is written, on linux the coloured line. -/
theorem C16_colour_policy_witness :
    (0 : Int) ≤ terminalHook.logger.GetModuleLength ∧
    getModuleName exampleEntry = .ok (ascii "db") ∧
    (∃ plain coloured : GoString,
      printEntry [] exampleEntry false terminalHook.logger.GetModuleLength = .ok plain ∧
      printEntry [] exampleEntry true terminalHook.logger.GetModuleLength = .ok coloured ∧
      plain ≠ coloured ∧
      terminalHook.Fire (ascii "windows") exampleEntry WriteOutcome.complete emptyConsole =
        .ok (emptyConsole.append (Fire.out exampleEntry.Level)
          (if terminalHook.logger.isTerminal = true ∧ ascii "windows" ≠ ascii "windows" then
            coloured else plain),
          none) ∧
      (ascii "windows" = ascii "windows" →
        terminalHook.Fire (ascii "windows") exampleEntry WriteOutcome.complete emptyConsole =
          .ok (emptyConsole.append (Fire.out exampleEntry.Level) plain, none)) ∧
      (ascii "windows" ≠ ascii "windows" →
        (terminalHook.logger.isTerminal && (ascii "windows" != ascii "windows")) =
          terminalHook.logger.isTerminal)) ∧
    terminalHook.Fire (ascii "windows") exampleEntry WriteOutcome.complete emptyConsole =
      .ok ({ stderr := ascii "2024-03-01T10:15:30.123 [  db] ERRO  conn lost\n", stdout := [] },
        none) ∧
    terminalHook.Fire (ascii "linux") exampleEntry WriteOutcome.complete emptyConsole =
      .ok ({ stderr := ascii "2024-03-01T10:15:30.123 [  db] \x1b[31mERRO\x1b[0m  conn lost\n",
             stdout := [] }, none) :=
  ⟨by decide, by decide,
    C16_colour_policy terminalHook (ascii "windows") exampleEntry emptyConsole (ascii "db")
      (by decide) (by decide),
    by decide, by decide⟩

/-- C17: colour changes nothing but the wrapper: for every record and width
>= 0 the coloured line is the plain line with the 5-byte prefix ESC `[`, two
digits, `m` put right before the level abbreviation and the 4-byte suffix
ESC `[0m` right after it, so it is exactly 9 bytes longer.
Here `name` is the module name that `getModuleName` returns for the record. -/
theorem C17_colour_only_wraps (buf : GoString) (e : Entry) (width : Int)
    (name : GoString) (hname : getModuleName e = .ok name) (h : 0 ≤ width) :
    ∃ pre code abbr post plain coloured : GoString,
      printEntry buf e false width = .ok plain ∧
      printEntry buf e true width = .ok coloured ∧
      plain = pre ++ abbr ++ post ∧
      coloured = pre ++ (ascii "\x1b[" ++ code ++ ascii "m") ++ abbr ++ ascii "\x1b[0m" ++ post ∧
      pre = buf ++ e.Time.Format ++ ascii " " ++ ascii "["
        ++ (if name.length > width.toNat then name.take width.toNat
            else List.replicate (width.toNat - name.length) 32 ++ name)
        ++ ascii "] " ∧
      abbr = (toUpper (Level.String e.Level)).take 4 ∧
      post = ascii "  " ++ e.Message ++ ascii "\n" ∧
      code.length = 2 ∧ (ascii "\x1b[" ++ code ++ ascii "m").length = 5 ∧
      (ascii "\x1b[0m").length = 4 ∧
      coloured.length = plain.length + 9 := by
  obtain ⟨c2, -, hcode⟩ := levelColor_digits e.Level
  have hplain := printEntry_eq buf e false width name hname h
  have hcol := printEntry_eq buf e true width name hname h
  rw [hcode] at hcol
  refine ⟨_, [0x33, c2], _, _, _, _, hplain, hcol, ?_, ?_, rfl, rfl, rfl, rfl, rfl, rfl, ?_⟩
  · simp only [Bool.false_eq_true, if_false, List.append_assoc, List.nil_append]
  · simp only [if_true, List.append_assoc]
  · simp only [Bool.false_eq_true, if_false, if_true, List.length_append, List.length_nil]
    have h1 : (ascii "\x1b[").length = 2 := by decide
    have h2 : (ascii "m").length = 1 := by decide
    have h3 : (ascii "\x1b[0m").length = 4 := by decide
    rw [h1, h2, h3]
    simp only [List.length_cons, List.length_nil]
    omega

/-- C17 at the end-to-end example record: the plain line has 46 bytes and the
coloured line 55. -/
theorem C17_colour_only_wraps_witness :
    (0 : Int) ≤ 4 ∧ getModuleName exampleEntry = .ok (ascii "db") ∧
    (∃ pre code abbr post plain coloured : GoString,
      printEntry [] exampleEntry false 4 = .ok plain ∧
      printEntry [] exampleEntry true 4 = .ok coloured ∧
      plain = pre ++ abbr ++ post ∧
      coloured = pre ++ (ascii "\x1b[" ++ code ++ ascii "m") ++ abbr ++ ascii "\x1b[0m" ++ post ∧
      pre = [] ++ exampleEntry.Time.Format ++ ascii " " ++ ascii "["
        ++ (if (ascii "db").length > (4 : Int).toNat then
              (ascii "db").take (4 : Int).toNat
            else List.replicate ((4 : Int).toNat - (ascii "db").length) 32
              ++ (ascii "db"))
        ++ ascii "] " ∧
      abbr = (toUpper (Level.String exampleEntry.Level)).take 4 ∧
      post = ascii "  " ++ exampleEntry.Message ++ ascii "\n" ∧
      code.length = 2 ∧ (ascii "\x1b[" ++ code ++ ascii "m").length = 5 ∧
      (ascii "\x1b[0m").length = 4 ∧
      coloured.length = plain.length + 9) ∧
    printEntry [] exampleEntry false 4 =
      .ok (ascii "2024-03-01T10:15:30.123 [  db] ERRO  conn lost\n") ∧
    printEntry [] exampleEntry true 4 =
      .ok (ascii "2024-03-01T10:15:30.123 [  db] \x1b[31mERRO\x1b[0m  conn lost\n") :=
  ⟨by decide, by decide, C17_colour_only_wraps [] exampleEntry 4 (ascii "db") (by decide) (by decide), by decide, by decide⟩

/-- C18: measured in bytes, for every module name and width >= 0 the text
between the brackets is exactly `width` bytes long; it is the first `width`
bytes of the name when the name has more bytes than that, and the name
preceded by spaces otherwise.  The cut is by bytes: the name made of U+00E9
twice (characters at bytes 0-1 and 2-3) is cut at width 3 inside its second
character, and the field then holds 2 characters, fewer than the width.
Here `name` is the module name that `getModuleName` returns for the record. -/
theorem C18_fit_is_bytewise (buf : GoString) (e : Entry) (colored : Bool) (width : Int)
    (name : GoString) (hname : getModuleName e = .ok name) (h : 0 ≤ width) :
    (∃ mid rest : GoString,
      printEntry buf e colored width =
        .ok (buf ++ e.Time.Format ++ ascii " " ++ (ascii "[" ++ mid ++ ascii "]") ++ ascii " "
          ++ rest) ∧
      (mid.length : Int) = width ∧
      ((name.length : Int) > width →
        mid = name.take width.toNat ∧ mid <+: name) ∧
      (¬ (name.length : Int) > width →
        mid = List.replicate (width.toNat - name.length) 32 ++ name)) ∧
    (printEntry [] twoAccentEntry false 3 =
        .ok (ascii "2024-03-01T10:15:30.123 " ++ (ascii "[" ++ [0xC3, 0xA9, 0xC3] ++ ascii "]")
          ++ ascii " " ++ ascii "INFO  started\n") ∧
      getModuleName twoAccentEntry = .ok [0xC3, 0xA9, 0xC3, 0xA9] ∧
      runeWidth ([0xC3, 0xA9, 0xC3, 0xA9] : GoString) = 2 ∧
      runeWidth (([0xC3, 0xA9, 0xC3, 0xA9] : GoString).drop 2) = 2 ∧
      runeCount [0xC3, 0xA9, 0xC3] = 2 ∧ runeCount [0xC3, 0xA9, 0xC3] < 3) := by
  refine ⟨?_, by decide⟩
  obtain ⟨rest, hrest⟩ := printEntry_field buf e colored width name hname h
  refine ⟨_, rest, hrest, ?_, ?_, ?_⟩
  · rw [fitted_length]
    omega
  · intro hgt
    have h1 : name.length > width.toNat := by omega
    rw [if_pos h1]
    exact ⟨rfl, List.take_prefix _ _⟩
  · intro hle
    have h1 : ¬ name.length > width.toNat := by omega
    rw [if_neg h1]

/-- C18 at the record with module name U+00E9 and width 3: the name is
padded to 3 bytes, which are 2 characters. -/
theorem C18_fit_is_bytewise_witness :
    (0 : Int) ≤ 3 ∧ getModuleName accentEntry = .ok ([0xC3, 0xA9] : GoString) ∧
    ((∃ mid rest : GoString,
      printEntry [] accentEntry false 3 =
        .ok ([] ++ accentEntry.Time.Format ++ ascii " " ++ (ascii "[" ++ mid ++ ascii "]")
          ++ ascii " " ++ rest) ∧
      (mid.length : Int) = 3 ∧
      ((([0xC3, 0xA9] : GoString).length : Int) > 3 →
        mid = ([0xC3, 0xA9] : GoString).take (3 : Int).toNat ∧ mid <+: ([0xC3, 0xA9] : GoString)) ∧
      (¬ (([0xC3, 0xA9] : GoString).length : Int) > 3 →
        mid = List.replicate ((3 : Int).toNat - ([0xC3, 0xA9] : GoString).length) 32
          ++ ([0xC3, 0xA9] : GoString))) ∧
    (printEntry [] twoAccentEntry false 3 =
        .ok (ascii "2024-03-01T10:15:30.123 " ++ (ascii "[" ++ [0xC3, 0xA9, 0xC3] ++ ascii "]")
          ++ ascii " " ++ ascii "INFO  started\n") ∧
      getModuleName twoAccentEntry = .ok [0xC3, 0xA9, 0xC3, 0xA9] ∧
      runeWidth ([0xC3, 0xA9, 0xC3, 0xA9] : GoString) = 2 ∧
      runeWidth (([0xC3, 0xA9, 0xC3, 0xA9] : GoString).drop 2) = 2 ∧
      runeCount [0xC3, 0xA9, 0xC3] = 2 ∧ runeCount [0xC3, 0xA9, 0xC3] < 3)) ∧
    runeCount (List.replicate 1 32 ++ ([0xC3, 0xA9] : GoString)) = 2 :=
  ⟨by decide, by decide, C18_fit_is_bytewise [] accentEntry false 3 ([0xC3, 0xA9] : GoString) (by decide) (by decide), by decide⟩

/-- C19: for every width >= 0, a module name whose length is the width is
written between the brackets unchanged, and a record whose module name is an
already fitted name gets that same text between the brackets again.  Here
`name` is the module name that `getModuleName` returns for the record. -/
theorem C19_fit_idempotent (buf : GoString) (e : Entry) (colored : Bool) (width : Int)
    (name : GoString) (hname : getModuleName e = .ok name) (h : 0 ≤ width) :
    ((name.length : Int) = width →
      ∃ rest : GoString, printEntry buf e colored width =
        .ok (buf ++ e.Time.Format ++ ascii " " ++ (ascii "[" ++ name ++ ascii "]")
          ++ ascii " " ++ rest)) ∧
    (∃ mid rest : GoString,
      printEntry buf e colored width =
        .ok (buf ++ e.Time.Format ++ ascii " " ++ (ascii "[" ++ mid ++ ascii "]") ++ ascii " "
          ++ rest) ∧
      mid = (if name.length > width.toNat then name.take width.toNat
            else List.replicate (width.toNat - name.length) 32 ++ name) ∧
      ∀ e2 : Entry, getModuleName e2 = .ok mid →
        ∃ rest2 : GoString, printEntry buf e2 colored width =
          .ok (buf ++ e2.Time.Format ++ ascii " " ++ (ascii "[" ++ mid ++ ascii "]") ++ ascii " "
            ++ rest2)) := by
  have hexact : ∀ (e1 : Entry) (name1 : GoString), getModuleName e1 = .ok name1 →
      (name1.length : Int) = width →
      ∃ rest : GoString, printEntry buf e1 colored width =
        .ok (buf ++ e1.Time.Format ++ ascii " " ++ (ascii "[" ++ name1 ++ ascii "]")
          ++ ascii " " ++ rest) := by
    intro e1 name1 hname1 hlen
    obtain ⟨rest, hrest⟩ := printEntry_field buf e1 colored width name1 hname1 h
    have h1 : ¬ name1.length > width.toNat := by omega
    have h2 : width.toNat - name1.length = 0 := by omega
    rw [if_neg h1, h2, List.replicate_zero, List.nil_append] at hrest
    exact ⟨rest, hrest⟩
  refine ⟨hexact e name hname, ?_⟩
  obtain ⟨rest, hrest⟩ := printEntry_field buf e colored width name hname h
  refine ⟨_, rest, hrest, rfl, ?_⟩
  intro e2 he2
  have hlen : (((if name.length > width.toNat then name.take width.toNat
      else List.replicate (width.toNat - name.length) 32 ++ name).length : Nat) : Int)
      = width := by
    rw [fitted_length]
    omega
  exact hexact e2 _ he2 hlen

/-- C19 at the record with module name `abcdefgh` and width 8, the length of
the name. -/
theorem C19_fit_idempotent_witness :
    (0 : Int) ≤ 8 ∧ getModuleName longNameEntry = .ok (ascii "abcdefgh") ∧
    ((ascii "abcdefgh").length : Int) = 8 ∧
    (∃ rest : GoString, printEntry [] longNameEntry false 8 =
        .ok ([] ++ longNameEntry.Time.Format ++ ascii " "
          ++ (ascii "[" ++ ascii "abcdefgh" ++ ascii "]") ++ ascii " " ++ rest)) ∧
    printEntry [] longNameEntry false 8 =
      .ok (ascii "2024-03-01T10:15:30.123 [abcdefgh] INFO  started\n") :=
  ⟨by decide, by decide, by decide,
    (C19_fit_idempotent [] longNameEntry false 8 (ascii "abcdefgh") (by decide) (by decide)).1
      (by decide),
    by decide⟩

/-- C20: the precondition width >= 0 is necessary: for every negative width
and every record `printEntry` ends with a panic; when `getModuleName` returns
the module name `name`, `len(modStr) > modLength` holds, the slice
`modStr[:modLength]` panics, and so do `printEntry` and a `Fire` whose logger
returns that width, with the slice-bounds panic; `printEntry` then returns a
line exactly when the width is not negative. -/
theorem C20_negative_width_panics (buf : GoString) (e : Entry) (colored : Bool) (width : Int)
    (h : width < 0) :
    (∃ p : Panic, printEntry buf e colored width = .error p) ∧
    (∀ name : GoString, getModuleName e = .ok name →
      (name.length : Int) > width ∧
      sliceTo name width = .error Panic.sliceBounds ∧
      printEntry buf e colored width = .error Panic.sliceBounds ∧
      (∀ (hook : consoleHook) (goos : GoString) (o : WriteOutcome) (c : Console),
        hook.logger.GetModuleLength = width →
          hook.Fire goos e o c = .error Panic.sliceBounds) ∧
      (∀ w : Int, (∃ out : GoString, printEntry buf e colored w = .ok out) ↔ 0 ≤ w)) := by
  have hneg : ∀ (name : GoString), getModuleName e = .ok name → ∀ (b : Bool) (w : Int), w < 0 →
      printEntry buf e b w = .error Panic.sliceBounds ∧
      printEntry [] e b w = .error Panic.sliceBounds := by
    intro name hname b w hw
    have hgt : (name.length : Int) > w := by omega
    have hs : sliceTo name w = .error Panic.sliceBounds := by
      unfold sliceTo slice
      rw [if_pos (Or.inr (Or.inl hw))]
    constructor
    · unfold printEntry
      rw [hname]
      simp only [ok_bind, if_pos hgt, hs]
      cases b <;> rfl
    · unfold printEntry
      rw [hname]
      simp only [ok_bind, if_pos hgt, hs]
      cases b <;> rfl
  constructor
  · cases hn : getModuleName e with
    | ok name => exact ⟨_, (hneg name hn colored width h).1⟩
    | error p =>
      refine ⟨p, ?_⟩
      unfold printEntry
      rw [hn]
      cases colored <;> rfl
  · intro name hname
    refine ⟨by omega, ?_, (hneg name hname colored width h).1, ?_, ?_⟩
    · unfold sliceTo slice
      rw [if_pos (Or.inr (Or.inl h))]
    · intro hook goos o c hw
      unfold consoleHook.Fire
      simp only [hw, (hneg name hname _ width h).2]
      rfl
    · intro w
      constructor
      · rintro ⟨out, hout⟩
        by_contra hw
        rw [(hneg name hname colored w (by omega)).1] at hout
        cases hout
      · intro hw
        exact ⟨_, printEntry_eq buf e colored w name hname hw⟩

/-- C20 at the end-to-end example record with width -1. -/
theorem C20_negative_width_panics_witness :
    (-1 : Int) < 0 ∧ getModuleName exampleEntry = .ok (ascii "db") ∧
    (((ascii "db").length : Int) > -1 ∧
      sliceTo (ascii "db") (-1) = .error Panic.sliceBounds ∧
      printEntry [] exampleEntry false (-1) = .error Panic.sliceBounds ∧
      (∀ (hook : consoleHook) (goos : GoString) (o : WriteOutcome) (c : Console),
        hook.logger.GetModuleLength = -1 →
          hook.Fire goos exampleEntry o c = .error Panic.sliceBounds) ∧
      (∀ w : Int, (∃ out : GoString, printEntry [] exampleEntry false w = .ok out) ↔ 0 ≤ w)) ∧
    negativeHook.Fire (ascii "linux") exampleEntry WriteOutcome.complete emptyConsole =
      .error Panic.sliceBounds :=
  ⟨by decide, by decide,
    (C20_negative_width_panics [] exampleEntry false (-1) (by decide)).2 (ascii "db") (by decide),
    by decide⟩

end ConsoleHook
